import Mathlib

/-!
Verification development for the secretz/vault-promoter repository.

This file gives a shallow embedding, in Lean 4, of the redaction policy,
structural differ, copy/merge engine, split engine and copy-operation log of
the Go sources, and proves or refutes the frozen claims about them.

Conventions of the embedding:
* Go strings are Lean `String`s, but every string primitive the sources use
  (`strings.ToLower`, `strings.Contains`, `strings.TrimSpace`,
  `strings.HasPrefix`, `strings.HasSuffix`) is re-implemented over `List Char`
  by structural recursion so that all definitions evaluate inside the kernel.
  The re-implementations agree with Go on ASCII data, which is the only data
  exercised here.
* Go `map[string]interface{}` documents are association lists
  `List (String × String)` whose values are the `fmt.Sprintf("%v", value)`
  renderings the sources immediately take; iteration order of a Go map is
  unspecified, so list order stands in for one arbitrary iteration order.
* `encoding/json` is modelled by an executable JSON value type, parser and
  (sorted-key, as in Go) serializers defined below.  Numbers keep their
  source literal; Go re-formats float64 values on output, which no theorem
  below depends on.
-/

/-- Lowercase a single ASCII character, as Go `strings.ToLower` does on
ASCII input (the sources only ever lower ASCII key names). -/
def lowerChar (c : Char) : Char :=
  if 65 ≤ c.toNat ∧ c.toNat ≤ 90 then Char.ofNat (c.toNat + 32) else c

/-- Embedding of Go `strings.ToLower` (ASCII fragment). -/
def goToLower (s : String) : String := ⟨s.data.map lowerChar⟩

/-- Check that the first list is an initial segment of the second. -/
def beginsWith : List Char → List Char → Bool
  | [], _ => true
  | _ :: _, [] => false
  | p :: ps, c :: cs => p == c && beginsWith ps cs

/-- Check that `pat` occurs as a contiguous sublist of the second argument. -/
def subIn (pat : List Char) : List Char → Bool
  | [] => beginsWith pat []
  | c :: cs => beginsWith pat (c :: cs) || subIn pat cs

/-- Embedding of Go `strings.Contains s pat`. -/
def goContains (s pat : String) : Bool := subIn pat.data s.data

/-- Embedding of Go `strings.HasPrefix s pat`. -/
def goStartsWith (s pat : String) : Bool := beginsWith pat.data s.data

/-- Embedding of Go `strings.HasSuffix s pat`. -/
def goEndsWith (s pat : String) : Bool := beginsWith pat.data.reverse s.data.reverse

/-- ASCII whitespace recognizer used by the `strings.TrimSpace` embedding. -/
def isSpaceChar (c : Char) : Bool := c == ' ' || c == '\t' || c == '\n' || c == '\r'

/-- Embedding of Go `strings.TrimSpace` (ASCII whitespace fragment). -/
def goTrimSpace (s : String) : String :=
  ⟨((s.data.dropWhile isSpaceChar).reverse.dropWhile isSpaceChar).reverse⟩

/-- Embedding of Go `strings.EqualFold` restricted to ASCII case folding,
which is how the split command compares key names. -/
def goEqualFold (a b : String) : Bool := goToLower a == goToLower b

/-- Configuration file model, after `pkg/config/config.go` (`Configs`):
the optional redaction settings with their JSON-absence defaults. -/
structure Configs where
  redactedKeys : List String
  redactSecrets : Option Bool
  redactJSONValues : Option Bool
deriving DecidableEq

/-- Built-in default sensitive key patterns
(`config.DefaultRedactedKeys` in `pkg/config/config.go`). -/
def DefaultRedactedKeys : List String :=
  ["password", "secret", "token", "key", "credential", "auth", "pwd", "pass",
   "apikey", "api_key", "access_key", "secret_key", "private_key", "cert", "certificate"]

/-- Embedding of `Configs.ShouldRedactSecrets`: defaults to true. -/
def Configs.shouldRedactSecrets (c : Configs) : Bool := c.redactSecrets.getD true

/-- Embedding of `Configs.ShouldRedactJSONValues`: defaults to false. -/
def Configs.shouldRedactJSONVals (c : Configs) : Bool := c.redactJSONValues.getD false

/-- Embedding of `Configs.GetRedactedKeys`: an empty configured list falls
back to the built-in default list. -/
def Configs.getRedactedKeys (c : Configs) : List String :=
  if c.redactedKeys.isEmpty then DefaultRedactedKeys else c.redactedKeys

/-- Pattern matcher shared by every sensitivity test in the sources: the
lowercased key contains the lowercased pattern as a substring. -/
def keyMatchesAny (patterns : List String) (key : String) : Bool :=
  patterns.any (fun rk => goContains (goToLower key) (goToLower rk))

/-- Embedding of the vault `Client.isRedactedKey` (part_007 lines 560-572):
returns false outright when `redactSecrets` is off, otherwise matches the
configured patterns.  The client snapshots `GetRedactedKeys()` and
`ShouldRedactSecrets()` at construction, so this takes the whole config. -/
def vaultIsRedactedKey (cfg : Configs) (key : String) : Bool :=
  if !cfg.shouldRedactSecrets then false
  else keyMatchesAny cfg.getRedactedKeys key

/-- Embedding of the AWS `Client.isRedactedKey`
(`pkg/awssecretsmanager/instance_compare.go` lines 625-641): every key is
redacted when `redactSecrets` is on, otherwise the configured patterns are
consulted. -/
def awsIsRedactedKey (cfg : Configs) (key : String) : Bool :=
  if cfg.shouldRedactSecrets then true
  else keyMatchesAny cfg.getRedactedKeys key

/-- Embedding of `shouldRedact` (`pkg/comparison/cross_store_compare.go`
lines 373-389), which is textually the same decision as the AWS
`isRedactedKey`. -/
def shouldRedact (key : String) (cfg : Configs) : Bool :=
  if cfg.shouldRedactSecrets then true
  else keyMatchesAny cfg.getRedactedKeys key

/-- Modelled from the spec: the sensitivity rule stated in §3 of the spec,
"A key is sensitive iff `redactAllSecrets` is true, OR the lowercased key
contains any pattern in `sensitiveKeyPatterns` as a substring".  Defined
from the spec text, for comparison against the source predicates. -/
def specIsSensitive (cfg : Configs) (key : String) : Bool :=
  cfg.shouldRedactSecrets || keyMatchesAny cfg.getRedactedKeys key

/-- Embedding of the hardcoded `isRedactedKey` of `pkg/vault/client.go`
(lines 232-239): suffix and substring checks against a fixed list, with no
lowercasing and no configuration. -/
def clientIsRedactedKey (key : String) : Bool :=
  goEndsWith key "secret" || goEndsWith key "secrets" ||
  goContains key "password" || goContains key "token" ||
  goContains key "key" || goContains key "credential"

/-- Hardcoded pattern list of `isSensitiveKey` in `cmd/cli/copy_secret.go`
(lines 92-106); the same literals as `DefaultRedactedKeys`, but baked into
the CLI logging code independently of the configuration. -/
def cliSensitivePatterns : List String :=
  ["password", "secret", "token", "key", "credential", "auth", "pwd", "pass",
   "apikey", "api_key", "access_key", "secret_key", "private_key", "cert", "certificate"]

/-- Embedding of `isSensitiveKey` in `cmd/cli/copy_secret.go`: lowercases
the key and tests the hardcoded patterns only. -/
def isSensitiveKey (key : String) : Bool :=
  cliSensitivePatterns.any (fun pat => goContains (goToLower key) pat)

/-- Embedding of the key-map construction of `logCopyOperation` in
`cmd/cli/copy_secret.go` (lines 49-59): each copied key keeps its value
unless `isSensitiveKey` holds, in which case the placeholder is logged. -/
def logCopyKeys (keys : List (String × String)) : List (String × String) :=
  keys.map (fun kv => (kv.1, if isSensitiveKey kv.1 then "(redacted)" else kv.2))

example : vaultIsRedactedKey ⟨["password"], some false, none⟩ "password" = false := by decide
example : awsIsRedactedKey ⟨["password"], some false, none⟩ "db_password_v2" = true := by decide
example : specIsSensitive ⟨["password"], some false, none⟩ "password" = true := by decide

/-- JSON value model for the `encoding/json` fragment the sources use
(`interface{}` holding `map[string]interface{}`, `[]interface{}`, `string`,
number, `bool`, `nil`).  Numbers keep their source literal. -/
inductive Json where
  | obj : List (String × Json) → Json
  | arr : List Json → Json
  | str : String → Json
  | num : String → Json
  | bool : Bool → Json
  | null : Json

/-- Opening brace character, kept as a named constant. -/
def lbrace : Char := Char.ofNat 123

/-- Closing brace character, kept as a named constant. -/
def rbrace : Char := Char.ofNat 125

/-- Drop leading JSON whitespace. -/
def skipWs : List Char → List Char
  | [] => []
  | c :: cs => if isSpaceChar c then skipWs cs else c :: cs

/-- Value of a hexadecimal digit character, if any. -/
def hexVal (c : Char) : Option Nat :=
  if 48 ≤ c.toNat ∧ c.toNat ≤ 57 then some (c.toNat - 48)
  else if 97 ≤ c.toNat ∧ c.toNat ≤ 102 then some (c.toNat - 87)
  else if 65 ≤ c.toNat ∧ c.toNat ≤ 70 then some (c.toNat - 55)
  else none

/-- Parse the body of a JSON string literal (the opening quote already
consumed), returning the decoded characters and the remaining input. -/
def parseStrBody : List Char → Option (List Char × List Char)
  | [] => none
  | c :: rest =>
    if c == '"' then some ([], rest)
    else if c == '\\' then
      match rest with
      | [] => none
      | e :: rest2 =>
        if e == '"' then (parseStrBody rest2).map (fun p => ('"' :: p.1, p.2))
        else if e == '\\' then (parseStrBody rest2).map (fun p => ('\\' :: p.1, p.2))
        else if e == '/' then (parseStrBody rest2).map (fun p => ('/' :: p.1, p.2))
        else if e == 'n' then (parseStrBody rest2).map (fun p => ('\n' :: p.1, p.2))
        else if e == 't' then (parseStrBody rest2).map (fun p => ('\t' :: p.1, p.2))
        else if e == 'r' then (parseStrBody rest2).map (fun p => ('\r' :: p.1, p.2))
        else if e == 'b' then (parseStrBody rest2).map (fun p => (Char.ofNat 8 :: p.1, p.2))
        else if e == 'f' then (parseStrBody rest2).map (fun p => (Char.ofNat 12 :: p.1, p.2))
        else if e == 'u' then
          match rest2 with
          | h1 :: h2 :: h3 :: h4 :: rest3 =>
            match hexVal h1, hexVal h2, hexVal h3, hexVal h4 with
            | some a, some b, some c2, some d =>
              (parseStrBody rest3).map
                (fun p => (Char.ofNat (((a * 16 + b) * 16 + c2) * 16 + d) :: p.1, p.2))
            | _, _, _, _ => none
          | _ => none
        else none
    else if c.toNat < 32 then none
    else (parseStrBody rest).map (fun p => (c :: p.1, p.2))

/-- Decimal digit recognizer. -/
def isDigitCh (c : Char) : Bool := 48 ≤ c.toNat && c.toNat ≤ 57

/-- Parse the integer part of a JSON number (no leading zeros except a
lone zero, as `encoding/json` requires). -/
def parseIntPart : List Char → Option (List Char × List Char)
  | [] => none
  | c :: rest =>
    if c == '0' then some (['0'], rest)
    else if isDigitCh c then some (c :: rest.takeWhile isDigitCh, rest.dropWhile isDigitCh)
    else none

/-- Parse an optional fraction part of a JSON number. -/
def parseFracPart : List Char → Option (List Char × List Char)
  | [] => some ([], [])
  | c :: rest =>
    if c == '.' then
      let ds := rest.takeWhile isDigitCh
      if ds.isEmpty then none else some ('.' :: ds, rest.dropWhile isDigitCh)
    else some ([], c :: rest)

/-- Parse an optional exponent part of a JSON number. -/
def parseExpPart : List Char → Option (List Char × List Char)
  | [] => some ([], [])
  | c :: rest =>
    if c == 'e' || c == 'E' then
      match rest with
      | s :: r =>
        if s == '+' || s == '-' then
          let ds := r.takeWhile isDigitCh
          if ds.isEmpty then none else some (c :: s :: ds, r.dropWhile isDigitCh)
        else
          let ds := rest.takeWhile isDigitCh
          if ds.isEmpty then none else some (c :: ds, rest.dropWhile isDigitCh)
      | [] => none
    else some ([], c :: rest)

/-- Parse a JSON number, keeping its literal text. -/
def parseNum (l : List Char) : Option (Json × List Char) :=
  let negAndRest : List Char × List Char :=
    match l with
    | c :: rest => if c == '-' then (['-'], rest) else ([], l)
    | [] => ([], l)
  match parseIntPart negAndRest.2 with
  | none => none
  | some (ip, r1) =>
    match parseFracPart r1 with
    | none => none
    | some (fp, r2) =>
      match parseExpPart r2 with
      | none => none
      | some (ep, r3) => some (Json.num ⟨negAndRest.1 ++ ip ++ fp ++ ep⟩, r3)

/-- Replace or append a binding in an association list, as assignment to a
Go map key does. -/
def upsert {β : Type} (l : List (String × β)) (k : String) (v : β) : List (String × β) :=
  match l with
  | [] => [(k, v)]
  | (k0, v0) :: rest => if k0 == k then (k, v) :: rest else (k0, v0) :: upsert rest k v

/-- Collapse duplicate object keys, the later binding winning, as
`encoding/json` does when decoding into a Go map. -/
def dedupKeys (ms : List (String × Json)) : List (String × Json) :=
  ms.foldl (fun acc kv => upsert acc kv.1 kv.2) []

mutual

/-- Fuel-indexed recursive-descent parser for a JSON value, mirroring what
`json.Unmarshal` accepts when decoding into `interface{}`.  The input is
assumed whitespace-skipped. -/
def parseValue : Nat → List Char → Option (Json × List Char)
  | 0, _ => none
  | _ + 1, [] => none
  | fuel + 1, c :: rest =>
    if c == lbrace then parseObjRest fuel (skipWs rest)
    else if c == '[' then parseArrRest fuel (skipWs rest)
    else if c == '"' then (parseStrBody rest).map (fun p => (Json.str ⟨p.1⟩, p.2))
    else if beginsWith ['t', 'r', 'u', 'e'] (c :: rest) then
      some (Json.bool true, (c :: rest).drop 4)
    else if beginsWith ['f', 'a', 'l', 's', 'e'] (c :: rest) then
      some (Json.bool false, (c :: rest).drop 5)
    else if beginsWith ['n', 'u', 'l', 'l'] (c :: rest) then
      some (Json.null, (c :: rest).drop 4)
    else parseNum (c :: rest)

/-- Parse the remainder of an object after the opening brace. -/
def parseObjRest : Nat → List Char → Option (Json × List Char)
  | 0, _ => none
  | _ + 1, [] => none
  | fuel + 1, c :: rest =>
    if c == rbrace then some (Json.obj [], rest)
    else
      match parseMembers fuel (c :: rest) with
      | none => none
      | some (ms, r) => some (Json.obj (dedupKeys ms), r)

/-- Parse one or more `"key": value` members and the closing brace. -/
def parseMembers : Nat → List Char → Option (List (String × Json) × List Char)
  | 0, _ => none
  | _ + 1, [] => none
  | fuel + 1, c :: rest =>
    if c == '"' then
      match parseStrBody rest with
      | none => none
      | some (kcs, r1) =>
        match skipWs r1 with
        | [] => none
        | c2 :: r2 =>
          if c2 == ':' then
            match parseValue fuel (skipWs r2) with
            | none => none
            | some (v, r3) =>
              match skipWs r3 with
              | [] => none
              | c3 :: r4 =>
                if c3 == ',' then
                  match parseMembers fuel (skipWs r4) with
                  | none => none
                  | some (ms, r5) => some ((⟨kcs⟩, v) :: ms, r5)
                else if c3 == rbrace then some ([(⟨kcs⟩, v)], r4)
                else none
          else none
    else none

/-- Parse the remainder of an array after the opening bracket. -/
def parseArrRest : Nat → List Char → Option (Json × List Char)
  | 0, _ => none
  | _ + 1, [] => none
  | fuel + 1, c :: rest =>
    if c == ']' then some (Json.arr [], rest)
    else
      match parseElems fuel (c :: rest) with
      | none => none
      | some (vs, r) => some (Json.arr vs, r)

/-- Parse one or more array elements and the closing bracket. -/
def parseElems : Nat → List Char → Option (List Json × List Char)
  | 0, _ => none
  | fuel + 1, l =>
    match parseValue fuel l with
    | none => none
    | some (v, r1) =>
      match skipWs r1 with
      | [] => none
      | c :: r2 =>
        if c == ',' then
          match parseElems fuel (skipWs r2) with
          | none => none
          | some (vs, r3) => some (v :: vs, r3)
        else if c == ']' then some ([v], r2)
        else none

end

/-- Embedding of `json.Unmarshal` into `interface{}`: the whole input,
modulo surrounding whitespace, must be one valid JSON value. -/
def parseJson (s : String) : Option Json :=
  match parseValue (s.data.length * 4 + 8) (skipWs s.data) with
  | some (j, rest) => if (skipWs rest).isEmpty then some j else none
  | none => none

example : parseJson "\x7b\"a\":1\x7d" = some (Json.obj [("a", Json.num "1")]) := rfl
example : parseJson "5" = some (Json.num "5") := rfl
example : parseJson " true " = some (Json.bool true) := rfl
example : parseJson "p1" = none := rfl
example : parseJson "\x7bnot json\x7d" = none := rfl
example : parseJson "[1, \"x\"]" = some (Json.arr [Json.num "1", Json.str "x"]) := rfl

mutual

/-- Boolean structural equality of JSON values; this is the embedding of
`reflect.DeepEqual` as the sources apply it (both sides always have the
same object-key order there, since one is an in-place redaction of the
other). -/
def jbeq : Json → Json → Bool
  | .obj ms, .obj ns => jbeqMembers ms ns
  | .arr xs, .arr ys => jbeqElems xs ys
  | .str a, .str b => a == b
  | .num a, .num b => a == b
  | .bool a, .bool b => a == b
  | .null, .null => true
  | _, _ => false

/-- Member-list equality for `jbeq`. -/
def jbeqMembers : List (String × Json) → List (String × Json) → Bool
  | [], [] => true
  | (k1, v1) :: r1, (k2, v2) :: r2 => k1 == k2 && jbeq v1 v2 && jbeqMembers r1 r2
  | _, _ => false

/-- Element-list equality for `jbeq`. -/
def jbeqElems : List Json → List Json → Bool
  | [], [] => true
  | x :: xs, y :: ys => jbeq x y && jbeqElems xs ys
  | _, _ => false

end

/-- Lexicographic character-list order (byte order on ASCII), matching how
Go sorts map keys during `json.Marshal`. -/
def listLtCh : List Char → List Char → Bool
  | [], [] => false
  | [], _ :: _ => true
  | _ :: _, [] => false
  | a :: as, b :: bs => a.toNat < b.toNat || (a == b && listLtCh as bs)

/-- Key order used when serializing objects. -/
def keyLt (a b : String) : Bool := listLtCh a.data b.data

/-- Insert one member into a key-sorted member list. -/
def insortMember (m : String × Json) : List (String × Json) → List (String × Json)
  | [] => [m]
  | n :: ns => if keyLt m.1 n.1 then m :: n :: ns else n :: insortMember m ns

/-- Sort members by key, as Go serialization of a map does. -/
def insortKeys (ms : List (String × Json)) : List (String × Json) :=
  ms.foldr insortMember []

mutual

/-- Recursively sort all object keys; Go `json.Marshal` emits map keys in
sorted order, so serialization goes through this canonical form. -/
def canon : Json → Json
  | .obj ms => .obj (insortKeys (canonMembers ms))
  | .arr xs => .arr (canonElems xs)
  | .str s => .str s
  | .num n => .num n
  | .bool b => .bool b
  | .null => .null

/-- Canonicalize the values of a member list. -/
def canonMembers : List (String × Json) → List (String × Json)
  | [] => []
  | (k, v) :: rest => (k, canon v) :: canonMembers rest

/-- Canonicalize the elements of an array. -/
def canonElems : List Json → List Json
  | [] => []
  | x :: rest => canon x :: canonElems rest

end

/-- Lowercase hexadecimal digit, as Go JSON string escapes use. -/
def hexDigitCh (n : Nat) : Char :=
  if n < 10 then Char.ofNat (48 + n) else Char.ofNat (87 + n)

/-- Escape one character of a JSON string, as `encoding/json` does with its
default HTML escaping. -/
def escChar (c : Char) : List Char :=
  if c == '"' then ['\\', '"']
  else if c == '\\' then ['\\', '\\']
  else if c == '\n' then ['\\', 'n']
  else if c == '\r' then ['\\', 'r']
  else if c == '\t' then ['\\', 't']
  else if c.toNat < 32 then
    ['\\', 'u', '0', '0', hexDigitCh (c.toNat / 16), hexDigitCh (c.toNat % 16)]
  else if c == '<' then ['\\', 'u', '0', '0', '3', 'c']
  else if c == '>' then ['\\', 'u', '0', '0', '3', 'e']
  else if c == '&' then ['\\', 'u', '0', '0', '2', '6']
  else [c]

/-- Serialize a JSON string literal with quotes and escapes. -/
def renderStrLit (s : String) : String :=
  ⟨'"' :: (s.data.map escChar).flatten ++ ['"']⟩

mutual

/-- Compact serializer (after canonicalization this is `json.Marshal`). -/
def renderComp : Json → String
  | .obj ms => "\x7b" ++ renderCompMembers ms ++ "\x7d"
  | .arr xs => "[" ++ renderCompElems xs ++ "]"
  | .str s => renderStrLit s
  | .num n => n
  | .bool b => cond b "true" "false"
  | .null => "null"

/-- Comma-joined members for the compact serializer. -/
def renderCompMembers : List (String × Json) → String
  | [] => ""
  | [(k, v)] => renderStrLit k ++ ":" ++ renderComp v
  | (k, v) :: m :: rest =>
      renderStrLit k ++ ":" ++ renderComp v ++ "," ++ renderCompMembers (m :: rest)

/-- Comma-joined elements for the compact serializer. -/
def renderCompElems : List Json → String
  | [] => ""
  | [x] => renderComp x
  | x :: y :: rest => renderComp x ++ "," ++ renderCompElems (y :: rest)

end

/-- Embedding of Go `json.Marshal` on decoded values. -/
def marshal (j : Json) : String := renderComp (canon j)

/-- Two-space indentation at the given depth. -/
def indentAt (d : Nat) : String := String.join (List.replicate d "  ")

mutual

/-- Indented serializer at a given depth (after canonicalization this is
`json.MarshalIndent(v, "", "  ")`). -/
def renderInd : Nat → Json → String
  | _, .obj [] => "\x7b\x7d"
  | d, .obj (m :: rest) =>
      "\x7b\n" ++ renderIndMembers (d + 1) (m :: rest) ++ "\n" ++ indentAt d ++ "\x7d"
  | _, .arr [] => "[]"
  | d, .arr (x :: rest) =>
      "[\n" ++ renderIndElems (d + 1) (x :: rest) ++ "\n" ++ indentAt d ++ "]"
  | _, .str s => renderStrLit s
  | _, .num n => n
  | _, .bool b => cond b "true" "false"
  | _, .null => "null"

/-- Members for the indented serializer. -/
def renderIndMembers : Nat → List (String × Json) → String
  | _, [] => ""
  | d, [(k, v)] => indentAt d ++ renderStrLit k ++ ": " ++ renderInd d v
  | d, (k, v) :: m :: rest =>
      indentAt d ++ renderStrLit k ++ ": " ++ renderInd d v ++ ",\n" ++
        renderIndMembers d (m :: rest)

/-- Elements for the indented serializer. -/
def renderIndElems : Nat → List Json → String
  | _, [] => ""
  | d, [x] => indentAt d ++ renderInd d x
  | d, x :: y :: rest => indentAt d ++ renderInd d x ++ ",\n" ++ renderIndElems d (y :: rest)

end

/-- Embedding of Go `json.MarshalIndent(v, "", "  ")` on decoded values. -/
def marshalIndent (j : Json) : String := renderInd 0 (canon j)

/-- Embedding of the vault `IsJSONValue` (part_007 lines 574-578): only a
trim-and-delimiter check, no parse attempt. -/
def vaultIsJSONValue (s : String) : Bool :=
  let t := goTrimSpace s
  (goStartsWith t "\x7b" && goEndsWith t "\x7d") || (goStartsWith t "[" && goEndsWith t "]")

/-- Embedding of the AWS `IsJSONValue`
(`pkg/awssecretsmanager/instance_compare.go` lines 643-647): a bare
`json.Unmarshal` success test, no delimiter check. -/
def awsIsJSONValue (s : String) : Bool := (parseJson s).isSome

/-- Embedding of `isJSONValue` (`pkg/comparison/cross_store_compare.go`
lines 416-420), identical to the AWS test. -/
def crossIsJSONValue (s : String) : Bool := (parseJson s).isSome

mutual

/-- Embedding of `redactJSONValues` of `pkg/comparison/cross_store_compare.go`
(lines 422-451): object values under a `shouldRedact` key become the
`"(redacted)"` placeholder, other structure is walked recursively. -/
def crossRedactJSONValues (cfg : Configs) : Json → Json
  | .obj ms => .obj (crossRedactMembers cfg ms)
  | .arr xs => .arr (crossRedactElems cfg xs)
  | .str s => .str s
  | .num n => .num n
  | .bool b => .bool b
  | .null => .null

/-- Member walk for `crossRedactJSONValues`. -/
def crossRedactMembers (cfg : Configs) : List (String × Json) → List (String × Json)
  | [] => []
  | (k, v) :: rest =>
      (if shouldRedact k cfg then (k, Json.str "(redacted)")
       else (k, crossRedactJSONValues cfg v)) :: crossRedactMembers cfg rest

/-- Element walk for `crossRedactJSONValues`. -/
def crossRedactElems (cfg : Configs) : List Json → List Json
  | [] => []
  | x :: rest => crossRedactJSONValues cfg x :: crossRedactElems cfg rest

end

mutual

/-- Embedding of the AWS `Client.RedactJSONValues`
(`pkg/awssecretsmanager/instance_compare.go` lines 649-679); same walk as
the cross-store one but keyed on the AWS `isRedactedKey`. -/
def awsRedactJSONValues (cfg : Configs) : Json → Json
  | .obj ms => .obj (awsRedactMembers cfg ms)
  | .arr xs => .arr (awsRedactElems cfg xs)
  | .str s => .str s
  | .num n => .num n
  | .bool b => .bool b
  | .null => .null

/-- Member walk for `awsRedactJSONValues`. -/
def awsRedactMembers (cfg : Configs) : List (String × Json) → List (String × Json)
  | [] => []
  | (k, v) :: rest =>
      (if awsIsRedactedKey cfg k then (k, Json.str "(redacted)")
       else (k, awsRedactJSONValues cfg v)) :: awsRedactMembers cfg rest

/-- Element walk for `awsRedactJSONValues`. -/
def awsRedactElems (cfg : Configs) : List Json → List Json
  | [] => []
  | x :: rest => awsRedactJSONValues cfg x :: awsRedactElems cfg rest

end

mutual

/-- Embedding of the vault `Client.RedactJSONValues` (part_007 lines
580-606): returns its input untouched unless `redactJSONVals` is on (the
guard is re-checked on every recursive call, with the same outcome), and
uses the `"****"` placeholder and the vault `isRedactedKey`. -/
def vaultRedactJSONValues (cfg : Configs) (j : Json) : Json :=
  if !cfg.shouldRedactJSONVals then j
  else
    match j with
    | .obj ms => .obj (vaultRedactMembers cfg ms)
    | .arr xs => .arr (vaultRedactElems cfg xs)
    | .str s => .str s
    | .num n => .num n
    | .bool b => .bool b
    | .null => .null

/-- Member walk for `vaultRedactJSONValues`. -/
def vaultRedactMembers (cfg : Configs) : List (String × Json) → List (String × Json)
  | [] => []
  | (k, v) :: rest =>
      (if vaultIsRedactedKey cfg k then (k, Json.str "****")
       else (k, vaultRedactJSONValues cfg v)) :: vaultRedactMembers cfg rest

/-- Element walk for `vaultRedactJSONValues`. -/
def vaultRedactElems (cfg : Configs) : List Json → List Json
  | [] => []
  | x :: rest => vaultRedactJSONValues cfg x :: vaultRedactElems cfg rest

end

/-- Embedding of the vault `Client.TryParseAndRedactJSON` (part_007 lines
732-755): requires `redactJSONVals`, the delimiter test, a successful
parse, and (via `reflect.DeepEqual`) that redaction changed something;
otherwise the value is reported as not JSON. -/
def vaultTryParseAndRedactJSON (cfg : Configs) (value : String) : String × Bool :=
  if !cfg.shouldRedactJSONVals || !vaultIsJSONValue value then (value, false)
  else
    match parseJson value with
    | none => (value, false)
    | some data =>
      let red := vaultRedactJSONValues cfg data
      if jbeq data red then (value, false) else (marshalIndent red, true)

/-- Embedding of the AWS `Client.TryParseAndRedactJSON`
(`pkg/awssecretsmanager/instance_compare.go` lines 681-704): parse test,
then the `reflect.DeepEqual` changed-something test. -/
def awsTryParseAndRedactJSON (cfg : Configs) (value : String) : String × Bool :=
  if !awsIsJSONValue value then (value, false)
  else
    match parseJson value with
    | none => (value, false)
    | some data =>
      let red := awsRedactJSONValues cfg data
      if jbeq data red then (value, false) else (marshalIndent red, true)

/-- Embedding of `tryParseAndRedactJSON` of
`pkg/comparison/cross_store_compare.go` (lines 391-414): parse test only —
no delimiter check and no changed-something check, so anything parseable
(bare scalars included) is re-serialized and reported as JSON. -/
def crossTryParseAndRedactJSON (cfg : Configs) (value : String) : String × Bool :=
  if !crossIsJSONValue value then (value, false)
  else
    match parseJson value with
    | none => (value, false)
    | some data => (marshalIndent (crossRedactJSONValues cfg data), true)

mutual

/-- Embedding of `extractJSONStructure` (identical in part_007, copy.go and
part_009): keeps object/array shape, blanks every primitive to `""`. -/
def extractJSONStructure : Json → Json
  | .obj ms => .obj (extractMembers ms)
  | .arr xs => .arr (extractElems xs)
  | .str _ => .str ""
  | .num _ => .str ""
  | .bool _ => .str ""
  | .null => .str ""

/-- Member walk for `extractJSONStructure`. -/
def extractMembers : List (String × Json) → List (String × Json)
  | [] => []
  | (k, v) :: rest =>
      (match v with
       | .obj _ => (k, extractJSONStructure v)
       | .arr _ => (k, extractJSONStructure v)
       | _ => (k, Json.str "")) :: extractMembers rest

/-- Element walk for `extractJSONStructure`. -/
def extractElems : List Json → List Json
  | [] => []
  | x :: rest => extractJSONStructure x :: extractElems rest

end

example :
    crossTryParseAndRedactJSON ⟨["password"], some true, some true⟩ "5" = ("5", true) := rfl
example :
    (vaultTryParseAndRedactJSON ⟨["password"], some true, some true⟩
      "\x7b\"password\":\"a\"\x7d").1 = "\x7b\n  \"password\": \"****\"\n\x7d" := rfl
example :
    vaultTryParseAndRedactJSON ⟨["password"], some true, some true⟩ "\x7boops\x7d" =
      ("\x7boops\x7d", false) := rfl
example : marshal (Json.obj [("b", Json.num "2"), ("a", Json.num "1")]) =
    "\x7b\"a\":1,\"b\":2\x7d" := rfl

/-- KeyValue document: the materialized form of a fetched secret, keys to
`%v`-rendered values. -/
abbrev Doc := List (String × String)

/-- Embedding of `DiffItem` of `pkg/comparison/cross_store_compare.go`. -/
structure DiffItem where
  key : String
  current : String
  target : String
  diff : String
  isRedacted : Bool
  status : String
deriving DecidableEq

/-- Display form of one value in the cross-store comparer: the
`ShouldRedactJSONValues` gate around `tryParseAndRedactJSON` that every
branch of `CompareVaultWithAWS` applies before storing a value into a
`DiffItem`. -/
def crossDisplay (cfg : Configs) (v : String) : String :=
  if cfg.shouldRedactJSONVals then
    let pr := crossTryParseAndRedactJSON cfg v
    if pr.2 then pr.1 else v
  else v

/-- INFO marker emitted by `CompareVaultWithAWS` when the source secret is
absent (message text as in the source, with the apostrophe elided). -/
def mkCrossInfoMissingSource (sourceInstanceName sourceStoreType : String) : DiffItem :=
  ⟨"INFO", "Secret doesnt exist in " ++ sourceInstanceName ++ " (" ++ sourceStoreType ++ ")",
    "", "", false, "-"⟩

/-- INFO marker emitted by `CompareVaultWithAWS` when the target secret is
absent. -/
def mkCrossInfoMissingTarget (targetInstanceName targetStoreType : String) : DiffItem :=
  ⟨"INFO", "", "Secret doesnt exist in " ++ targetInstanceName ++ " (" ++ targetStoreType ++ ")",
    "", false, "+"⟩

/-- Embedding of the both-present comparison section of
`CompareVaultWithAWS` (`pkg/comparison/cross_store_compare.go` lines
271-361).  The first pass walks source keys, emitting Added for keys
absent in the target, and Modified when the two displayed (possibly
JSON-redacted) strings differ; the second pass emits Removed for target
keys absent in the source (`processedKeys` holds every source key by
then).  `gdiff` abstracts the external `diffmatchpatch` text diff.
This function is the per-source-key entry of the first pass. -/
def crossBothEntrySrc (gdiff : String → String → String) (cfg : Configs) (tdoc : Doc)
    (kv : String × String) : Option DiffItem :=
  match tdoc.lookup kv.1 with
  | none => some ⟨kv.1, crossDisplay cfg kv.2, "", "", shouldRedact kv.1 cfg, "+"⟩
  | some tv =>
    let s := crossDisplay cfg kv.2
    let t := crossDisplay cfg tv
    if s != t then
      some ⟨kv.1, s, t, if !(shouldRedact kv.1 cfg) then gdiff s t else "",
        shouldRedact kv.1 cfg, "*"⟩
    else none

/-- Entry produced by the second (target) pass of the both-present section
for one target key: Removed when the key is not in the source. -/
def crossBothEntryTgt (cfg : Configs) (sdoc : Doc) (kv : String × String) :
    Option DiffItem :=
  if (sdoc.lookup kv.1).isSome then none
  else some ⟨kv.1, "", crossDisplay cfg kv.2, "", shouldRedact kv.1 cfg, "-"⟩

/-- Both passes of the both-present section of `CompareVaultWithAWS`. -/
def crossBoth (gdiff : String → String → String) (cfg : Configs) (sdoc tdoc : Doc) :
    List DiffItem :=
  sdoc.filterMap (crossBothEntrySrc gdiff cfg tdoc) ++
  tdoc.filterMap (crossBothEntryTgt cfg sdoc)

/-- Display form of one value in the both-present section of the vault
`Client.CompareSecrets` (part_007 lines 517-525): `TryParseAndRedactJSON`
is called unconditionally there (the `redactJSONVals` gate lives inside
it), and the value is replaced only when it reports JSON. -/
def vaultDisplay (cfg : Configs) (v : String) : String :=
  let pr := vaultTryParseAndRedactJSON cfg v
  if pr.2 then pr.1 else v

/-- Per-source-key entry of the both-present section of the vault
`Client.CompareSecrets` (part_007 lines 497-543): Added with the raw
rendered value (and the path-suffix redaction heuristic) when the key is
absent in the target; otherwise Modified exactly when the two displayed
(possibly JSON-redacted) strings differ, the textual diff generated only
when `isRedactedKey` is off.  Entries share the `DiffItem` shape, whose
fields coincide with the part_007 `SecretDiff`. -/
def vaultBothEntrySrc (gdiff : String → String → String) (cfg : Configs)
    (pathSuffix : String) (tdoc : Doc) (kv : String × String) : Option DiffItem :=
  match tdoc.lookup kv.1 with
  | none =>
    some ⟨kv.1, kv.2, "", "",
      vaultIsRedactedKey cfg kv.1 || goContains pathSuffix "secret", "+"⟩
  | some tv =>
    let s := vaultDisplay cfg kv.2
    let t := vaultDisplay cfg tv
    if s != t then
      some ⟨kv.1, s, t, if !(vaultIsRedactedKey cfg kv.1) then gdiff s t else "",
        vaultIsRedactedKey cfg kv.1, "*"⟩
    else none

/-- Per-target-key entry of the second pass of the vault
`Client.CompareSecrets` both-present section (part_007 lines 545-555):
Removed, with the raw rendered value, when the key was not processed. -/
def vaultBothEntryTgt (cfg : Configs) (pathSuffix : String) (sdoc : Doc)
    (kv : String × String) : Option DiffItem :=
  if (sdoc.lookup kv.1).isSome then none
  else
    some ⟨kv.1, "", kv.2, "",
      vaultIsRedactedKey cfg kv.1 || goContains pathSuffix "secret", "-"⟩

/-- Both passes of the both-present comparison of the vault
`Client.CompareSecrets` (part_007 lines 494-557). -/
def vaultBoth (gdiff : String → String → String) (cfg : Configs) (pathSuffix : String)
    (sdoc tdoc : Doc) : List DiffItem :=
  sdoc.filterMap (vaultBothEntrySrc gdiff cfg pathSuffix tdoc) ++
  tdoc.filterMap (vaultBothEntryTgt cfg pathSuffix sdoc)

/-- Display form of one value in `CompareAWSSecretInstances`
(`pkg/awssecretsmanager/instance_compare.go` lines 292-302): the
`redactJSONVals` gate around the AWS `TryParseAndRedactJSON`.  Source and
target clients are built from the same `Configs`, so one configuration
serves both sides. -/
def awsDisplay (cfg : Configs) (v : String) : String :=
  if cfg.shouldRedactJSONVals then
    let pr := awsTryParseAndRedactJSON cfg v
    if pr.2 then pr.1 else v
  else v

/-- Per-source-key entry of the both-JSON comparison section of
`CompareAWSSecretInstances` (`pkg/awssecretsmanager/instance_compare.go`
lines 261-320): Added (with display redaction applied) when the key is
absent in the target; otherwise Modified exactly when the two displayed
strings differ, the textual diff generated only when `isRedactedKey` is
off. -/
def awsBothEntrySrc (gdiff : String → String → String) (cfg : Configs)
    (tdoc : Doc) (kv : String × String) : Option DiffItem :=
  match tdoc.lookup kv.1 with
  | none => some ⟨kv.1, awsDisplay cfg kv.2, "", "", awsIsRedactedKey cfg kv.1, "+"⟩
  | some tv =>
    let s := awsDisplay cfg kv.2
    let t := awsDisplay cfg tv
    if s != t then
      some ⟨kv.1, s, t, if !(awsIsRedactedKey cfg kv.1) then gdiff s t else "",
        awsIsRedactedKey cfg kv.1, "*"⟩
    else none

/-- Per-target-key entry of the second pass of `CompareAWSSecretInstances`
(`pkg/awssecretsmanager/instance_compare.go` lines 322-343): Removed, with
display redaction applied, when the key was not processed. -/
def awsBothEntryTgt (cfg : Configs) (sdoc : Doc) (kv : String × String) :
    Option DiffItem :=
  if (sdoc.lookup kv.1).isSome then none
  else some ⟨kv.1, "", awsDisplay cfg kv.2, "", awsIsRedactedKey cfg kv.1, "-"⟩

/-- Both passes of the both-JSON comparison of `CompareAWSSecretInstances`
(`pkg/awssecretsmanager/instance_compare.go` lines 258-348). -/
def awsBoth (gdiff : String → String → String) (cfg : Configs) (sdoc tdoc : Doc) :
    List DiffItem :=
  sdoc.filterMap (awsBothEntrySrc gdiff cfg tdoc) ++
  tdoc.filterMap (awsBothEntryTgt cfg sdoc)

/-- Embedding of the diff computation of `CompareVaultWithAWS`
(`pkg/comparison/cross_store_compare.go` lines 179-368) once both fetches
have resolved to present (`some doc`) or absent (`none`): the BothMissing
error, the two absence branches with their INFO markers, and the
both-present comparison. -/
def crossCompare (gdiff : String → String → String) (cfg : Configs)
    (sourceInstanceName targetInstanceName sourceStoreType targetStoreType : String)
    (src tgt : Option Doc) : Except String (List DiffItem) :=
  match src, tgt with
  | none, none => .error "secrets dont exist in both stores"
  | none, some tdoc =>
      .ok (mkCrossInfoMissingSource sourceInstanceName sourceStoreType ::
        tdoc.map (fun kv => ⟨kv.1, "", crossDisplay cfg kv.2, "", shouldRedact kv.1 cfg, "-"⟩))
  | some sdoc, none =>
      .ok (mkCrossInfoMissingTarget targetInstanceName targetStoreType ::
        sdoc.map (fun kv => ⟨kv.1, crossDisplay cfg kv.2, "", "", shouldRedact kv.1 cfg, "+"⟩))
  | some sdoc, some tdoc => .ok (crossBoth gdiff cfg sdoc tdoc)

/-- Embedding of `SecretDiff` of `pkg/vault/client.go` (no textual diff
field in that older client). -/
structure SecretDiffC where
  key : String
  current : String
  target : String
  isRedacted : Bool
  status : String
deriving DecidableEq

/-- Redaction flag used for per-key entries of `pkg/vault/client.go`:
`isRedactedKey(key) || strings.Contains(pathSuffix, "secret")`. -/
def clientEntryRedacted (pathSuffix key : String) : Bool :=
  clientIsRedactedKey key || goContains pathSuffix "secret"

/-- Embedding of `Client.CompareSecrets` of `pkg/vault/client.go` (lines
89-230) on fetched documents: path-suffix validation, the both-missing
error, the two absence branches (INFO marker then every present-side key),
and the plain string comparison of common keys. -/
def clientCompareSecrets (envName targetEnvName pathSuffix : String)
    (cur tgt : Option Doc) : Except String (List SecretDiffC) :=
  if !(["config", "configs", "secret", "secrets"].contains pathSuffix) then
    .error "invalid path suffix"
  else
    match cur, tgt with
    | none, none => .error "secret doesnt exist in both environments"
    | none, some tdoc =>
        .ok (⟨"INFO", "Secret doesnt exist in " ++ envName ++ " environment", "", false, "-"⟩ ::
          tdoc.map (fun kv => ⟨kv.1, "", kv.2, clientEntryRedacted pathSuffix kv.1, "-"⟩))
    | some cdoc, none =>
        .ok (⟨"INFO", "", "Secret doesnt exist in " ++ targetEnvName ++ " environment",
            false, "+"⟩ ::
          cdoc.map (fun kv => ⟨kv.1, kv.2, "", clientEntryRedacted pathSuffix kv.1, "+"⟩))
    | some cdoc, some tdoc =>
        .ok ((cdoc.filterMap (fun kv =>
            match tdoc.lookup kv.1 with
            | none => some ⟨kv.1, kv.2, "", clientEntryRedacted pathSuffix kv.1, "+"⟩
            | some tv =>
              if kv.2 != tv then
                some ⟨kv.1, kv.2, tv, clientEntryRedacted pathSuffix kv.1, "*"⟩
              else none)) ++
          tdoc.filterMap (fun kv =>
            if (cdoc.lookup kv.1).isSome then none
            else some ⟨kv.1, "", kv.2, clientEntryRedacted pathSuffix kv.1, "-"⟩))

/-- Embedding of `CopyOptions` (identical field set in the vault and AWS
clients; the CLI default leaves all four false). -/
structure CopyOptions where
  overwrite : Bool
  copyConfig : Bool
  copySecrets : Bool
  onlyCopyKeys : Bool
deriving DecidableEq

/-- Value transformation the vault `Client.CopySecret` (part_007 lines
103-127) applies to a source value that passed the inclusion filter:
the JSON branch (only when `redactJSONVals` is on and the delimiter test
passes and the parse succeeds) re-marshals, blanking structure for
`OnlyCopyKeys` or redacting for a sensitive key without `CopySecrets`;
the scalar branch blanks the value for `OnlyCopyKeys` or for a sensitive
key without `CopySecrets` when `redactSecrets` is on. -/
def vaultCopyTransform (cfg : Configs) (opts : CopyOptions) (isRed : Bool) (v : String) :
    String :=
  if cfg.shouldRedactJSONVals && vaultIsJSONValue v then
    match parseJson v with
    | some jd0 =>
      let jd := if opts.onlyCopyKeys then extractJSONStructure jd0
                else if isRed && !opts.copySecrets then vaultRedactJSONValues cfg jd0
                else jd0
      marshal jd
    | none => v
  else if opts.onlyCopyKeys || (isRed && !opts.copySecrets && cfg.shouldRedactSecrets) then ""
  else v

/-- One iteration of the source-key loop of the vault `Client.CopySecret`
(part_007 lines 85-131): skip when the key already exists and `Overwrite`
is off, apply the two inclusion filters, otherwise store the transformed
value. -/
def vaultCopyStep (cfg : Configs) (opts : CopyOptions) (acc : Doc) (kv : String × String) :
    Doc :=
  if (acc.lookup kv.1).isSome && !opts.overwrite then acc
  else
    let isRed := vaultIsRedactedKey cfg kv.1
    if isRed && !opts.copySecrets && !opts.copyConfig then acc
    else if !isRed && opts.copySecrets && !opts.copyConfig then acc
    else upsert acc kv.1 (vaultCopyTransform cfg opts isRed kv.2)

/-- Embedding of the merge the vault `Client.CopySecret` (part_007 lines
74-134) builds and then writes in a single `Put`: start from the target
document (empty when the target does not exist) and fold the source keys
through the per-key step. -/
def vaultCopyMerge (cfg : Configs) (opts : CopyOptions) (sourceData targetData : Doc) : Doc :=
  sourceData.foldl (vaultCopyStep cfg opts) targetData

/-- Value transformation of the AWS `Client.CopySecret`
(`pkg/awssecretsmanager/copy.go` lines 103-127), identical in shape to the
vault one but with the parse-based `IsJSONValue` and the AWS
`isRedactedKey`/`RedactJSONValues`. -/
def awsCopyTransform (cfg : Configs) (opts : CopyOptions) (isRed : Bool) (v : String) :
    String :=
  if cfg.shouldRedactJSONVals && awsIsJSONValue v then
    match parseJson v with
    | some jd0 =>
      let jd := if opts.onlyCopyKeys then extractJSONStructure jd0
                else if isRed && !opts.copySecrets then awsRedactJSONValues cfg jd0
                else jd0
      marshal jd
    | none => v
  else if opts.onlyCopyKeys || (isRed && !opts.copySecrets && cfg.shouldRedactSecrets) then ""
  else v

/-- One iteration of the source-key loop of the AWS `Client.CopySecret`
(`pkg/awssecretsmanager/copy.go` lines 85-131). -/
def awsCopyStep (cfg : Configs) (opts : CopyOptions) (acc : Doc) (kv : String × String) :
    Doc :=
  if (acc.lookup kv.1).isSome && !opts.overwrite then acc
  else
    let isRed := awsIsRedactedKey cfg kv.1
    if isRed && !opts.copySecrets && !opts.copyConfig then acc
    else if !isRed && opts.copySecrets && !opts.copyConfig then acc
    else upsert acc kv.1 (awsCopyTransform cfg opts isRed kv.2)

/-- Embedding of the merged document the AWS `Client.CopySecret`
(`pkg/awssecretsmanager/copy.go` lines 74-150) marshals and writes in one
`CreateSecret`/`UpdateSecret` call, for the JSON-document case the cited
lines cover. -/
def awsCopyMerge (cfg : Configs) (opts : CopyOptions) (sourceData targetData : Doc) : Doc :=
  sourceData.foldl (awsCopyStep cfg opts) targetData

/-- Key-to-document state of one secret store backend; absent paths are
absent keys.  Mount/engine state is outside the model (engine creation is
not a document write). -/
abbrev Store := List (String × Doc)

/-- Sensitivity test of the split command (part_005 lines 306-315):
`strings.EqualFold` on the whole key, or containment of the lowercased
pattern in the lowercased key. -/
def splitIsSensitive (sensitiveKeys : List String) (k : String) : Bool :=
  sensitiveKeys.any (fun s => goEqualFold k s || goContains (goToLower k) (goToLower s))

/-- Failure cases of the split command flow (each is an `os.Exit(1)` path
of `splitCmd.Run` in part_005). -/
inductive SplitErr where
  | sourceFetch
  | targetExists
  | emptySource
  | noSensitiveConfigured
  | noSensitiveMatched
deriving DecidableEq

/-- Result of one modelled split invocation: final store state, number of
document writes performed, the failure (if any), and the recorded
moved-key list. -/
structure SplitOut where
  store : Store
  writes : Nat
  err : Option SplitErr
  splitKeys : List String
deriving DecidableEq

/-- Modelled from the spec: `Client.WriteSecret` is not under src/ (only
its callers in the split command are); per spec §4.2 `Write(path,
KeyValueDocument)` stores the document at the path, replacing what was
there.  Each call is one write. -/
def writeSecret (st : Store) (path : String) (d : Doc) : Store := upsert st path d

/-- Embedding of the vault flow of `splitCmd.Run` (part_005 lines
192-354) after client construction: fetch the source document (failing
when absent), fail when the target path already resolves, validate
non-emptiness and the configured pattern list, partition the source keys
by `splitIsSensitive` while recording the moved keys, then two-phase
write: sensitive set to the target first, remaining set over the source
second. -/
def splitRun (sensitiveKeys : List String) (st : Store) (sourcePath targetPath : String) :
    SplitOut :=
  match st.lookup sourcePath with
  | none => ⟨st, 0, some .sourceFetch, []⟩
  | some sourceSecret =>
    if (st.lookup targetPath).isSome then ⟨st, 0, some .targetExists, []⟩
    else if sourceSecret.isEmpty then ⟨st, 0, some .emptySource, []⟩
    else if sensitiveKeys.isEmpty then ⟨st, 0, some .noSensitiveConfigured, []⟩
    else
      let sensitiveData := sourceSecret.filter (fun kv => splitIsSensitive sensitiveKeys kv.1)
      let newSourceData :=
        sourceSecret.filter (fun kv => !splitIsSensitive sensitiveKeys kv.1)
      let splitKeysList := sensitiveData.map Prod.fst
      if sensitiveData.isEmpty then ⟨st, 0, some .noSensitiveMatched, []⟩
      else
        let st1 := writeSecret st targetPath sensitiveData
        let st2 := writeSecret st1 sourcePath newSourceData
        ⟨st2, 2, none, splitKeysList⟩

example :
    splitRun ["token"] [("app/prod/config", [("user", "bob"), ("token", "t1")])]
      "app/prod/config" "app/prod/newpath" =
    ⟨[("app/prod/config", [("user", "bob")]),
      ("app/prod/newpath", [("token", "t1")])], 2, none, ["token"]⟩ := rfl

/-- Looking up the upserted key finds the new value. -/
theorem lookup_upsert_self {β : Type} (l : List (String × β)) (k : String) (v : β) :
    (upsert l k v).lookup k = some v := by
  induction l with
  | nil => simp [upsert, List.lookup]
  | cons p rest ih =>
    obtain ⟨k0, v0⟩ := p
    by_cases h : k0 = k
    · subst h; simp [upsert, List.lookup]
    · simp [upsert, List.lookup, h, beq_eq_false_iff_ne.mpr (Ne.symm h), ih]

/-- Upserting one key leaves lookups of other keys unchanged. -/
theorem lookup_upsert_ne {β : Type} (l : List (String × β)) (k k0 : String) (v : β)
    (h : k0 ≠ k) : (upsert l k v).lookup k0 = l.lookup k0 := by
  induction l with
  | nil => simp [upsert, List.lookup, beq_eq_false_iff_ne.mpr h]
  | cons p rest ih =>
    obtain ⟨k1, v1⟩ := p
    by_cases h1 : k1 = k
    · simp [upsert, List.lookup, h1, beq_eq_false_iff_ne.mpr h]
    · by_cases h2 : k0 = k1
      · simp [upsert, List.lookup, beq_eq_false_iff_ne.mpr h1, h2]
      · simp [upsert, List.lookup, beq_eq_false_iff_ne.mpr h1,
          beq_eq_false_iff_ne.mpr h2, ih]

/-- A successful lookup yields a member of the association list. -/
theorem lookup_mem {β : Type} {l : List (String × β)} {k : String} {v : β}
    (h : l.lookup k = some v) : (k, v) ∈ l := by
  induction l with
  | nil => simp [List.lookup] at h
  | cons p rest ih =>
    obtain ⟨k1, v1⟩ := p
    by_cases h1 : k = k1
    · subst h1
      simp [List.lookup] at h
      simp [h]
    · simp [List.lookup, beq_eq_false_iff_ne.mpr h1] at h
      exact List.mem_cons_of_mem _ (ih h)

/-- With duplicate-free keys, membership determines the lookup result. -/
theorem lookup_of_mem_nodup {β : Type} {l : List (String × β)} {k : String} {v : β}
    (hn : (l.map Prod.fst).Nodup) (hm : (k, v) ∈ l) : l.lookup k = some v := by
  induction l with
  | nil => simp at hm
  | cons p rest ih =>
    obtain ⟨k1, v1⟩ := p
    rw [List.map_cons] at hn
    have hk1notin : k1 ∉ rest.map Prod.fst := (List.nodup_cons.mp hn).1
    have hn1 : (rest.map Prod.fst).Nodup := (List.nodup_cons.mp hn).2
    rcases List.mem_cons.mp hm with h | h
    · cases h
      simp [List.lookup]
    · have hk : k ≠ k1 := by
        intro he
        apply hk1notin
        rw [← he]
        exact List.mem_map_of_mem Prod.fst h
      simpa [List.lookup, beq_eq_false_iff_ne.mpr hk] using ih hn1 h

/-- C1: the claim states that all three sensitivity tests return true iff
`redactAllSecrets` is true OR the lowercased key contains a configured
pattern; the vault `isRedactedKey` refutes it: with `redact_secrets`
false, the key "password" matches the configured pattern "password" (so
the claim demands sensitivity) yet the vault test returns false. -/
theorem C1_counterexample :
    specIsSensitive ⟨["password"], some false, none⟩ "password" = true ∧
    vaultIsRedactedKey ⟨["password"], some false, none⟩ "password" = false :=
  ⟨rfl, rfl⟩

/-- C1 (amended): the AWS `isRedactedKey` and the cross-store
`shouldRedact` agree with the spec rule (`redactAllSecrets` OR
case-insensitive pattern containment), but the vault `isRedactedKey`
computes the conjunction instead: true iff `redactAllSecrets` is true AND
the lowercased key contains a configured pattern, so with redaction
disabled no key is ever sensitive there and with it enabled only
pattern-matching keys are. -/
theorem C1_amended (cfg : Configs) (key : String) :
    awsIsRedactedKey cfg key = specIsSensitive cfg key ∧
    shouldRedact key cfg = specIsSensitive cfg key ∧
    vaultIsRedactedKey cfg key =
      (cfg.shouldRedactSecrets && keyMatchesAny cfg.getRedactedKeys key) := by
  unfold awsIsRedactedKey shouldRedact specIsSensitive vaultIsRedactedKey
  cases h : cfg.shouldRedactSecrets <;> simp [h]

/-- C5: the claim states that, with `redactAllSecrets` on, the copy log
maps every key containing a configured sensitive pattern to a placeholder;
the counterexample configures the pattern "dbconn" (and `redact_secrets`
true), and the key "dbconn_url" — which contains that configured pattern —
is still logged with its raw value, because `logCopyOperation` consults
only the hardcoded built-in list. -/
theorem C5_counterexample :
    (⟨["dbconn"], some true, some false⟩ : Configs).shouldRedactSecrets = true ∧
    goContains (goToLower "dbconn_url") (goToLower "dbconn") = true ∧
    logCopyKeys [("dbconn_url", "raw-value-123")] = [("dbconn_url", "raw-value-123")] :=
  ⟨rfl, rfl, rfl⟩

/-- C5 (amended): the copy-operation log redacts exactly the keys whose
lowercased name contains one of the built-in hardcoded patterns of
`isSensitiveKey`; the configured pattern list and `redactAllSecrets` are
not consulted, so keys matching only a custom configured pattern are
logged with their raw values. -/
theorem C5_amended (ks : List (String × String)) (k v : String) (h : (k, v) ∈ ks) :
    (k, if isSensitiveKey k then "(redacted)" else v) ∈ logCopyKeys ks ∧
    (isSensitiveKey k = false → (k, v) ∈ logCopyKeys ks) := by
  constructor
  · exact List.mem_map.mpr ⟨(k, v), h, rfl⟩
  · intro hns
    have h2 : (k, if isSensitiveKey k then "(redacted)" else v) ∈ logCopyKeys ks :=
      List.mem_map.mpr ⟨(k, v), h, rfl⟩
    rw [hns] at h2
    simpa using h2

/-- Witness for C5 (amended) at a concrete log map. -/
theorem C5_amended_witness :
    ("password", if isSensitiveKey "password" then "(redacted)" else "x") ∈
        logCopyKeys [("password", "x")] ∧
      (isSensitiveKey "password" = false →
        ("password", "x") ∈ logCopyKeys [("password", "x")]) :=
  C5_amended [("password", "x")] "password" "x" (List.mem_singleton.mpr rfl)

/-- C10: the claim states a value is treated as JSON-like iff (after
trimming) it is brace/bracket-delimited AND parses, with bare scalars
opaque; refuted: the parse-based `IsJSONValue` accepts the bare scalar
"5" (no braces), the cross-store walker re-serializes it and reports it
as JSON, and the vault `IsJSONValue` accepts the malformed
brace-delimited "\x7boops\x7d" on the delimiter test alone. -/
theorem C10_counterexample :
    awsIsJSONValue "5" = true ∧
    crossTryParseAndRedactJSON ⟨["password"], some true, some true⟩ "5" = ("5", true) ∧
    vaultIsJSONValue "\x7boops\x7d" = true :=
  ⟨rfl, rfl, rfl⟩

/-- C10 (amended): the three walkers disagree and none implements the
claimed brace-AND-parse rule exactly: the cross-store walker treats a
string as JSON-like iff it parses (bare scalars included); the AWS walker
iff it parses and redaction changes it; the vault walker iff nested-JSON
redaction is enabled, the trimmed string is brace/bracket-delimited, it
parses, and redaction changes it. -/
theorem C10_amended (cfg : Configs) (s : String) :
    ((crossTryParseAndRedactJSON cfg s).2 = true ↔ (parseJson s).isSome = true) ∧
    ((awsTryParseAndRedactJSON cfg s).2 = true ↔
      ∃ j, parseJson s = some j ∧ jbeq j (awsRedactJSONValues cfg j) = false) ∧
    ((vaultTryParseAndRedactJSON cfg s).2 = true ↔
      cfg.shouldRedactJSONVals = true ∧ vaultIsJSONValue s = true ∧
        ∃ j, parseJson s = some j ∧ jbeq j (vaultRedactJSONValues cfg j) = false) := by
  refine ⟨?_, ?_, ?_⟩
  · cases hp : parseJson s <;>
      simp [crossTryParseAndRedactJSON, crossIsJSONValue, hp]
  · cases hp : parseJson s with
    | none => simp [awsTryParseAndRedactJSON, awsIsJSONValue, hp]
    | some j =>
      cases hb : jbeq j (awsRedactJSONValues cfg j) <;>
        simp [awsTryParseAndRedactJSON, awsIsJSONValue, hp, hb]
  · cases hrj : cfg.shouldRedactJSONVals with
    | false => simp [vaultTryParseAndRedactJSON, hrj]
    | true =>
      cases hbr : vaultIsJSONValue s with
      | false => simp [vaultTryParseAndRedactJSON, hrj, hbr]
      | true =>
        cases hp : parseJson s with
        | none => simp [vaultTryParseAndRedactJSON, hrj, hbr, hp]
        | some j =>
          cases hb : jbeq j (vaultRedactJSONValues cfg j) <;>
            simp [vaultTryParseAndRedactJSON, hrj, hbr, hp, hb]

/-- C3: the claim states that with both `CopySecretsOnly` and
`CopyConfigOnly` unset every source key, sensitive keys included, is
copied; refuted: with default options and default-style redaction config,
the sensitive source key "password" is skipped by the inclusion filter in
both the vault and the AWS `CopySecret` merge, leaving the written
document empty. -/
theorem C3_counterexample :
    vaultIsRedactedKey ⟨["password"], some true, some false⟩ "password" = true ∧
    vaultCopyMerge ⟨["password"], some true, some false⟩ ⟨false, false, false, false⟩
      [("password", "p1")] [] = [] ∧
    awsCopyMerge ⟨["password"], some true, some false⟩ ⟨false, false, false, false⟩
      [("password", "p1")] [] = [] :=
  ⟨rfl, rfl, rfl⟩

/-- C4: the claim states the value stored at the target always equals the
real source value, redaction being display-only; refuted: a sensitive key
included via `CopyConfig` (with `CopySecrets` unset and `redact_secrets`
on) is stored as the empty string by both merges — redaction mutates the
written data here. -/
theorem C4_counterexample :
    vaultCopyMerge ⟨["password"], some true, some false⟩ ⟨false, true, false, false⟩
        [("password", "p1")] [] = [("password", "")] ∧
    awsCopyMerge ⟨["password"], some true, some false⟩ ⟨false, true, false, false⟩
        [("password", "p1")] [] = [("password", "")] ∧
    ("p1" : String) ≠ "" :=
  ⟨rfl, rfl, by decide⟩

/-- C4 (amended): with `KeysOnly` unset and the nested-JSON branch not
taken, the stored value equals the real source value exactly when the key
is non-sensitive or `CopySecrets` is set or `redactSecrets` is off; a
sensitive key copied without `CopySecrets` while `redactSecrets` is on is
stored as the empty string (and, symmetrically, the JSON branch stores a
structurally redacted re-marshalling), so redaction is applied to the
written data, not only to the outcome log. -/
theorem C4_amended (cfg : Configs) (opts : CopyOptions) (isRed : Bool) (v : String)
    (hok : opts.onlyCopyKeys = false)
    (hv : (cfg.shouldRedactJSONVals && vaultIsJSONValue v) = false)
    (ha : (cfg.shouldRedactJSONVals && awsIsJSONValue v) = false) :
    vaultCopyTransform cfg opts isRed v =
      (if isRed && !opts.copySecrets && cfg.shouldRedactSecrets then "" else v) ∧
    awsCopyTransform cfg opts isRed v =
      (if isRed && !opts.copySecrets && cfg.shouldRedactSecrets then "" else v) := by
  constructor
  · simp only [vaultCopyTransform, hv, hok]
    cases hc : (isRed && !opts.copySecrets && cfg.shouldRedactSecrets) <;> simp [hc]
  · simp only [awsCopyTransform, ha, hok]
    cases hc : (isRed && !opts.copySecrets && cfg.shouldRedactSecrets) <;> simp [hc]

/-- Witness for C4 (amended): a sensitive scalar copied under
`CopyConfig` with redaction on is stored blanked. -/
theorem C4_amended_witness :
    vaultCopyTransform ⟨["password"], some true, some false⟩ ⟨false, true, false, false⟩
        true "p1" = (if (true && !false && true : Bool) then "" else "p1") ∧
    awsCopyTransform ⟨["password"], some true, some false⟩ ⟨false, true, false, false⟩
        true "p1" = (if (true && !false && true : Bool) then "" else "p1") :=
  C4_amended ⟨["password"], some true, some false⟩ ⟨false, true, false, false⟩ true "p1"
    rfl rfl rfl

/-- C7: the claim states every Split invocation against an existing target
fails with the target-already-exists error; refuted: the source document
is fetched before the target check, so with the source absent and the
target present the operation fails with the source-fetch error instead
(still with zero writes). -/
theorem C7_counterexample :
    splitRun ["token"] [("tgt", [("a", "1")])] "src" "tgt" =
      ⟨[("tgt", [("a", "1")])], 0, some SplitErr.sourceFetch, []⟩ ∧
    some SplitErr.sourceFetch ≠ some SplitErr.targetExists ∧
    (List.lookup "tgt" [("tgt", [("a", "1")])]).isSome = true :=
  ⟨rfl, by decide, rfl⟩

/-- C7 (amended): for every Split invocation whose source document exists
and whose target location already holds a document, the operation fails
with the target-already-exists error and performs zero writes — the store
is returned unchanged; when the source fetch itself fails the reported
error is the source error instead, also with zero writes. -/
theorem C7_amended (sk : List String) (st : Store) (sp tp : String)
    (hsrc : (st.lookup sp).isSome = true) (htgt : (st.lookup tp).isSome = true) :
    splitRun sk st sp tp = ⟨st, 0, some SplitErr.targetExists, []⟩ := by
  rcases hs : st.lookup sp with _ | d
  · rw [hs] at hsrc
    simp at hsrc
  · simp [splitRun, hs, htgt]

/-- Witness for C7 (amended) at a concrete two-document store. -/
theorem C7_amended_witness :
    splitRun ["token"] [("s", [("a", "1")]), ("t", [("b", "2")])] "s" "t" =
      ⟨[("s", [("a", "1")]), ("t", [("b", "2")])], 0, some SplitErr.targetExists, []⟩ :=
  C7_amended ["token"] [("s", [("a", "1")]), ("t", [("b", "2")])] "s" "t" rfl rfl

/-- C8: when Split succeeds, the partition of the pre-split source
document is total and disjoint: the target receives exactly the sensitive
subset, the source is rewritten to exactly the non-sensitive subset, the
two written documents together are a permutation of the pre-split source
(so their key sets union to the pre-split key set with empty
intersection), membership in each side is decided by the sensitivity
test, and the recorded moved-keys list is exactly the keys of the
sensitive subset. -/
theorem C8_split_partition (sk : List String) (st : Store) (sp tp : String) (d : Doc)
    (hsrc : st.lookup sp = some d)
    (hout : (splitRun sk st sp tp).err = none) :
    (splitRun sk st sp tp).store.lookup tp =
        some (d.filter (fun kv => splitIsSensitive sk kv.1)) ∧
    (splitRun sk st sp tp).store.lookup sp =
        some (d.filter (fun kv => !splitIsSensitive sk kv.1)) ∧
    (d.filter (fun kv => splitIsSensitive sk kv.1) ++
        d.filter (fun kv => !splitIsSensitive sk kv.1)).Perm d ∧
    (∀ kv : String × String, kv ∈ d →
      (kv ∈ d.filter (fun kv => splitIsSensitive sk kv.1) ↔
        splitIsSensitive sk kv.1 = true)) ∧
    (∀ kv : String × String,
      ¬(kv ∈ d.filter (fun kv => splitIsSensitive sk kv.1) ∧
        kv ∈ d.filter (fun kv => !splitIsSensitive sk kv.1))) ∧
    (splitRun sk st sp tp).splitKeys =
        (d.filter (fun kv => splitIsSensitive sk kv.1)).map Prod.fst := by
  by_cases htgt : (st.lookup tp).isSome = true
  · simp [splitRun, hsrc, htgt] at hout
  · by_cases hemp : d.isEmpty = true
    · simp [splitRun, hsrc, htgt, hemp] at hout
    · by_cases hske : sk.isEmpty = true
      · simp [splitRun, hsrc, htgt, hemp, hske] at hout
      · by_cases hmatch :
          (d.filter (fun kv => splitIsSensitive sk kv.1)).isEmpty = true
        · simp [splitRun, hsrc, htgt, hemp, hske, hmatch] at hout
        · have hsptp : tp ≠ sp := by
            intro he
            rw [he, hsrc] at htgt
            simp at htgt
          have hrun : splitRun sk st sp tp =
              ⟨writeSecret (writeSecret st tp
                  (d.filter (fun kv => splitIsSensitive sk kv.1))) sp
                  (d.filter (fun kv => !splitIsSensitive sk kv.1)),
                2, none,
                (d.filter (fun kv => splitIsSensitive sk kv.1)).map Prod.fst⟩ := by
            simp [splitRun, hsrc, htgt, hemp, hske, hmatch]
          refine ⟨?_, ?_, ?_, ?_, ?_, ?_⟩
          · rw [hrun]
            show (writeSecret _ sp _).lookup tp = _
            rw [writeSecret, lookup_upsert_ne _ _ _ _ hsptp]
            exact lookup_upsert_self st tp _
          · rw [hrun]
            exact lookup_upsert_self _ sp _
          · exact List.filter_append_perm _ d
          · intro kv hkv
            constructor
            · intro hmem
              exact (List.mem_filter.mp hmem).2
            · intro hp
              exact List.mem_filter.mpr ⟨hkv, hp⟩
          · intro kv ⟨h1, h2⟩
            have hp1 := (List.mem_filter.mp h1).2
            have hp2 := (List.mem_filter.mp h2).2
            rw [hp1] at hp2
            simp at hp2
          · rw [hrun]

/-- Witness for C8 at the spec §8 scenario: splitting
`(user, bob), (token, t1)` on pattern list `[token]`. -/
theorem C8_split_partition_witness :
    (splitRun ["token"] [("p", [("user", "bob"), ("token", "t1")])] "p" "q").store.lookup
        "q" = some ([("user", "bob"), ("token", "t1")].filter
          (fun kv => splitIsSensitive ["token"] kv.1)) ∧
    (splitRun ["token"] [("p", [("user", "bob"), ("token", "t1")])] "p" "q").store.lookup
        "p" = some ([("user", "bob"), ("token", "t1")].filter
          (fun kv => !splitIsSensitive ["token"] kv.1)) ∧
    ([("user", "bob"), ("token", "t1")].filter
        (fun kv => splitIsSensitive ["token"] kv.1) ++
      [("user", "bob"), ("token", "t1")].filter
        (fun kv => !splitIsSensitive ["token"] kv.1)).Perm
      [("user", "bob"), ("token", "t1")] ∧
    (∀ kv : String × String, kv ∈ ([("user", "bob"), ("token", "t1")] : Doc) →
      (kv ∈ [("user", "bob"), ("token", "t1")].filter
          (fun kv => splitIsSensitive ["token"] kv.1) ↔
        splitIsSensitive ["token"] kv.1 = true)) ∧
    (∀ kv : String × String,
      ¬(kv ∈ [("user", "bob"), ("token", "t1")].filter
          (fun kv => splitIsSensitive ["token"] kv.1) ∧
        kv ∈ [("user", "bob"), ("token", "t1")].filter
          (fun kv => !splitIsSensitive ["token"] kv.1))) ∧
    (splitRun ["token"] [("p", [("user", "bob"), ("token", "t1")])] "p" "q").splitKeys =
      ([("user", "bob"), ("token", "t1")].filter
        (fun kv => splitIsSensitive ["token"] kv.1)).map Prod.fst :=
  C8_split_partition ["token"] [("p", [("user", "bob"), ("token", "t1")])] "p" "q"
    [("user", "bob"), ("token", "t1")] rfl rfl

/-- With `Overwrite` off, one copy step never disturbs an existing
binding. -/
theorem vaultCopyStep_keeps (cfg : Configs) (opts : CopyOptions) (acc : Doc)
    (kv : String × String) (k v : String)
    (how : opts.overwrite = false) (h : acc.lookup k = some v) :
    (vaultCopyStep cfg opts acc kv).lookup k = some v := by
  simp only [vaultCopyStep]
  split
  · exact h
  · split
    · exact h
    · split
      · exact h
      · rename_i h1 _ _
        by_cases hk : k = kv.1
        · exfalso
          apply h1
          rw [← hk, h, how]
          rfl
        · rw [lookup_upsert_ne _ _ _ _ hk]
          exact h

/-- One copy step never removes a binding. -/
theorem vaultCopyStep_isSome (cfg : Configs) (opts : CopyOptions) (acc : Doc)
    (kv : String × String) (k : String)
    (h : (acc.lookup k).isSome = true) :
    ((vaultCopyStep cfg opts acc kv).lookup k).isSome = true := by
  simp only [vaultCopyStep]
  split
  · exact h
  · split
    · exact h
    · split
      · exact h
      · by_cases hk : k = kv.1
        · rw [hk, lookup_upsert_self]
          rfl
        · rw [lookup_upsert_ne _ _ _ _ hk]
          exact h

/-- A copy step on a key that passes both inclusion filters leaves that
key bound. -/
theorem vaultCopyStep_reach (cfg : Configs) (opts : CopyOptions) (acc : Doc)
    (kv : String × String)
    (hf1 : (vaultIsRedactedKey cfg kv.1 && !opts.copySecrets && !opts.copyConfig) = false)
    (hf2 : (!(vaultIsRedactedKey cfg kv.1) && opts.copySecrets && !opts.copyConfig) = false) :
    ((vaultCopyStep cfg opts acc kv).lookup kv.1).isSome = true := by
  simp only [vaultCopyStep]
  split
  · rename_i hc
    simp only [Bool.and_eq_true] at hc
    exact hc.1
  · rw [hf1]
    simp only [Bool.false_eq_true, if_false]
    rw [hf2]
    simp only [Bool.false_eq_true, if_false]
    rw [lookup_upsert_self]
    rfl

/-- Fold version of `vaultCopyStep_keeps`. -/
theorem vaultCopyFold_keeps (cfg : Configs) (opts : CopyOptions) :
    ∀ (src acc : Doc) (k v : String), opts.overwrite = false →
      acc.lookup k = some v →
      ((src.foldl (vaultCopyStep cfg opts) acc).lookup k) = some v
  | [], _, _, _, _, h => h
  | e :: rest, acc, k, v, how, h =>
    vaultCopyFold_keeps cfg opts rest _ k v how
      (vaultCopyStep_keeps cfg opts acc e k v how h)

/-- Fold version of `vaultCopyStep_isSome`. -/
theorem vaultCopyFold_isSome (cfg : Configs) (opts : CopyOptions) :
    ∀ (src acc : Doc) (k : String), (acc.lookup k).isSome = true →
      ((src.foldl (vaultCopyStep cfg opts) acc).lookup k).isSome = true
  | [], _, _, h => h
  | e :: rest, acc, k, h =>
    vaultCopyFold_isSome cfg opts rest _ k (vaultCopyStep_isSome cfg opts acc e k h)

/-- Every source key passing both inclusion filters is bound after the
merge fold. -/
theorem vaultCopyFold_reach (cfg : Configs) (opts : CopyOptions) :
    ∀ (src acc : Doc) (k v : String), (k, v) ∈ src →
      (vaultIsRedactedKey cfg k && !opts.copySecrets && !opts.copyConfig) = false →
      (!(vaultIsRedactedKey cfg k) && opts.copySecrets && !opts.copyConfig) = false →
      ((src.foldl (vaultCopyStep cfg opts) acc).lookup k).isSome = true := by
  intro src
  induction src with
  | nil =>
    intro acc k v hm
    simp at hm
  | cons e rest ih =>
    intro acc k v hm hf1 hf2
    rcases List.mem_cons.mp hm with he | hm2
    · rw [List.foldl_cons]
      apply vaultCopyFold_isSome cfg opts rest _ k
      rw [← he]
      exact vaultCopyStep_reach cfg opts acc (k, v) hf1 hf2
    · rw [List.foldl_cons]
      exact ih _ k v hm2 hf1 hf2

/-- A sensitive key with both only-filters off is skipped, so one copy
step leaves its lookup unchanged. -/
theorem vaultCopyStep_sens (cfg : Configs) (opts : CopyOptions) (acc : Doc)
    (kv : String × String) (k : String)
    (hcs : opts.copySecrets = false) (hcc : opts.copyConfig = false)
    (hred : vaultIsRedactedKey cfg k = true) :
    (vaultCopyStep cfg opts acc kv).lookup k = acc.lookup k := by
  simp only [vaultCopyStep]
  split
  · rfl
  · split
    · rfl
    · split
      · rfl
      · rename_i h2 _
        by_cases hk : k = kv.1
        · exfalso
          apply h2
          rw [← hk, hred, hcs, hcc]
          rfl
        · exact lookup_upsert_ne _ _ _ _ hk

/-- Fold version of `vaultCopyStep_sens`. -/
theorem vaultCopyFold_sens (cfg : Configs) (opts : CopyOptions) :
    ∀ (src acc : Doc) (k : String), opts.copySecrets = false →
      opts.copyConfig = false → vaultIsRedactedKey cfg k = true →
      (src.foldl (vaultCopyStep cfg opts) acc).lookup k = acc.lookup k
  | [], _, _, _, _, _ => rfl
  | e :: rest, acc, k, hcs, hcc, hred => by
    rw [List.foldl_cons, vaultCopyFold_sens cfg opts rest _ k hcs hcc hred]
    exact vaultCopyStep_sens cfg opts acc e k hcs hcc hred

/-- With `Overwrite` off, one copy step never disturbs an existing
binding. -/
theorem awsCopyStep_keeps (cfg : Configs) (opts : CopyOptions) (acc : Doc)
    (kv : String × String) (k v : String)
    (how : opts.overwrite = false) (h : acc.lookup k = some v) :
    (awsCopyStep cfg opts acc kv).lookup k = some v := by
  simp only [awsCopyStep]
  split
  · exact h
  · split
    · exact h
    · split
      · exact h
      · rename_i h1 _ _
        by_cases hk : k = kv.1
        · exfalso
          apply h1
          rw [← hk, h, how]
          rfl
        · rw [lookup_upsert_ne _ _ _ _ hk]
          exact h

/-- One copy step never removes a binding. -/
theorem awsCopyStep_isSome (cfg : Configs) (opts : CopyOptions) (acc : Doc)
    (kv : String × String) (k : String)
    (h : (acc.lookup k).isSome = true) :
    ((awsCopyStep cfg opts acc kv).lookup k).isSome = true := by
  simp only [awsCopyStep]
  split
  · exact h
  · split
    · exact h
    · split
      · exact h
      · by_cases hk : k = kv.1
        · rw [hk, lookup_upsert_self]
          rfl
        · rw [lookup_upsert_ne _ _ _ _ hk]
          exact h

/-- A copy step on a key that passes both inclusion filters leaves that
key bound. -/
theorem awsCopyStep_reach (cfg : Configs) (opts : CopyOptions) (acc : Doc)
    (kv : String × String)
    (hf1 : (awsIsRedactedKey cfg kv.1 && !opts.copySecrets && !opts.copyConfig) = false)
    (hf2 : (!(awsIsRedactedKey cfg kv.1) && opts.copySecrets && !opts.copyConfig) = false) :
    ((awsCopyStep cfg opts acc kv).lookup kv.1).isSome = true := by
  simp only [awsCopyStep]
  split
  · rename_i hc
    simp only [Bool.and_eq_true] at hc
    exact hc.1
  · rw [hf1]
    simp only [Bool.false_eq_true, if_false]
    rw [hf2]
    simp only [Bool.false_eq_true, if_false]
    rw [lookup_upsert_self]
    rfl

/-- Fold version of `awsCopyStep_keeps`. -/
theorem awsCopyFold_keeps (cfg : Configs) (opts : CopyOptions) :
    ∀ (src acc : Doc) (k v : String), opts.overwrite = false →
      acc.lookup k = some v →
      ((src.foldl (awsCopyStep cfg opts) acc).lookup k) = some v
  | [], _, _, _, _, h => h
  | e :: rest, acc, k, v, how, h =>
    awsCopyFold_keeps cfg opts rest _ k v how
      (awsCopyStep_keeps cfg opts acc e k v how h)

/-- Fold version of `awsCopyStep_isSome`. -/
theorem awsCopyFold_isSome (cfg : Configs) (opts : CopyOptions) :
    ∀ (src acc : Doc) (k : String), (acc.lookup k).isSome = true →
      ((src.foldl (awsCopyStep cfg opts) acc).lookup k).isSome = true
  | [], _, _, h => h
  | e :: rest, acc, k, h =>
    awsCopyFold_isSome cfg opts rest _ k (awsCopyStep_isSome cfg opts acc e k h)

/-- Every source key passing both inclusion filters is bound after the
merge fold. -/
theorem awsCopyFold_reach (cfg : Configs) (opts : CopyOptions) :
    ∀ (src acc : Doc) (k v : String), (k, v) ∈ src →
      (awsIsRedactedKey cfg k && !opts.copySecrets && !opts.copyConfig) = false →
      (!(awsIsRedactedKey cfg k) && opts.copySecrets && !opts.copyConfig) = false →
      ((src.foldl (awsCopyStep cfg opts) acc).lookup k).isSome = true := by
  intro src
  induction src with
  | nil =>
    intro acc k v hm
    simp at hm
  | cons e rest ih =>
    intro acc k v hm hf1 hf2
    rcases List.mem_cons.mp hm with he | hm2
    · rw [List.foldl_cons]
      apply awsCopyFold_isSome cfg opts rest _ k
      rw [← he]
      exact awsCopyStep_reach cfg opts acc (k, v) hf1 hf2
    · rw [List.foldl_cons]
      exact ih _ k v hm2 hf1 hf2

/-- A sensitive key with both only-filters off is skipped, so one copy
step leaves its lookup unchanged. -/
theorem awsCopyStep_sens (cfg : Configs) (opts : CopyOptions) (acc : Doc)
    (kv : String × String) (k : String)
    (hcs : opts.copySecrets = false) (hcc : opts.copyConfig = false)
    (hred : awsIsRedactedKey cfg k = true) :
    (awsCopyStep cfg opts acc kv).lookup k = acc.lookup k := by
  simp only [awsCopyStep]
  split
  · rfl
  · split
    · rfl
    · split
      · rfl
      · rename_i h2 _
        by_cases hk : k = kv.1
        · exfalso
          apply h2
          rw [← hk, hred, hcs, hcc]
          rfl
        · exact lookup_upsert_ne _ _ _ _ hk

/-- Fold version of `awsCopyStep_sens`. -/
theorem awsCopyFold_sens (cfg : Configs) (opts : CopyOptions) :
    ∀ (src acc : Doc) (k : String), opts.copySecrets = false →
      opts.copyConfig = false → awsIsRedactedKey cfg k = true →
      (src.foldl (awsCopyStep cfg opts) acc).lookup k = acc.lookup k
  | [], _, _, _, _, _ => rfl
  | e :: rest, acc, k, hcs, hcc, hred => by
    rw [List.foldl_cons, awsCopyFold_sens cfg opts rest _ k hcs hcc hred]
    exact awsCopyStep_sens cfg opts acc e k hcs hcc hred

/-- C3 (amended): with both `CopySecretsOnly` and `CopyConfigOnly` unset,
keys the client deems sensitive (`isRedactedKey`) are excluded from the
merge rather than copied: their binding in the written document is
exactly whatever the target already had, in both the vault and the AWS
`CopySecret`.  Only non-sensitive source keys are copied by default. -/
theorem C3_amended (cfg : Configs) (opts : CopyOptions) (src tgt : Doc) (k : String)
    (hcs : opts.copySecrets = false) (hcc : opts.copyConfig = false) :
    (vaultIsRedactedKey cfg k = true →
      (vaultCopyMerge cfg opts src tgt).lookup k = tgt.lookup k) ∧
    (awsIsRedactedKey cfg k = true →
      (awsCopyMerge cfg opts src tgt).lookup k = tgt.lookup k) :=
  ⟨fun hred => vaultCopyFold_sens cfg opts src tgt k hcs hcc hred,
   fun hred => awsCopyFold_sens cfg opts src tgt k hcs hcc hred⟩

/-- Witness for C3 (amended) at the counterexample configuration. -/
theorem C3_amended_witness :
    (vaultIsRedactedKey ⟨["password"], some true, some false⟩ "password" = true →
      (vaultCopyMerge ⟨["password"], some true, some false⟩ ⟨false, false, false, false⟩
          [("password", "p1")] []).lookup "password" =
        List.lookup "password" ([] : Doc)) ∧
    (awsIsRedactedKey ⟨["password"], some true, some false⟩ "password" = true →
      (awsCopyMerge ⟨["password"], some true, some false⟩ ⟨false, false, false, false⟩
          [("password", "p1")] []).lookup "password" =
        List.lookup "password" ([] : Doc)) :=
  C3_amended ⟨["password"], some true, some false⟩ ⟨false, false, false, false⟩
    [("password", "p1")] [] "password" rfl rfl

/-- C6: with `Overwrite` off, every key present in the target before the
copy keeps its pre-call value in the merged document that is written, and
every source key that passes the two inclusion filters ends up bound in
the written document; proven for both the vault and the AWS
`CopySecret` merges. -/
theorem C6_copy_frame (cfg : Configs) (opts : CopyOptions) (src tgt : Doc) (k v : String)
    (how : opts.overwrite = false) (hnt : (tgt.map Prod.fst).Nodup) :
    ((k, v) ∈ tgt →
      (vaultCopyMerge cfg opts src tgt).lookup k = some v ∧
      (awsCopyMerge cfg opts src tgt).lookup k = some v) ∧
    (tgt.lookup k = none → (k, v) ∈ src →
      ((vaultIsRedactedKey cfg k && !opts.copySecrets && !opts.copyConfig) = false →
        (!(vaultIsRedactedKey cfg k) && opts.copySecrets && !opts.copyConfig) = false →
        ((vaultCopyMerge cfg opts src tgt).lookup k).isSome = true) ∧
      ((awsIsRedactedKey cfg k && !opts.copySecrets && !opts.copyConfig) = false →
        (!(awsIsRedactedKey cfg k) && opts.copySecrets && !opts.copyConfig) = false →
        ((awsCopyMerge cfg opts src tgt).lookup k).isSome = true)) := by
  constructor
  · intro hm
    have h0 := lookup_of_mem_nodup hnt hm
    exact ⟨vaultCopyFold_keeps cfg opts src tgt k v how h0,
           awsCopyFold_keeps cfg opts src tgt k v how h0⟩
  · intro _ hm
    exact ⟨fun hf1 hf2 => vaultCopyFold_reach cfg opts src tgt k v hm hf1 hf2,
           fun hf1 hf2 => awsCopyFold_reach cfg opts src tgt k v hm hf1 hf2⟩

/-- Witness for C6 at a concrete copy into an absent target. -/
theorem C6_copy_frame_witness :
    ((("b", "1") ∈ ([] : Doc) →
      (vaultCopyMerge ⟨["password"], some true, some false⟩ ⟨false, false, false, false⟩
          [("b", "1")] []).lookup "b" = some "1" ∧
      (awsCopyMerge ⟨["password"], some true, some false⟩ ⟨false, false, false, false⟩
          [("b", "1")] []).lookup "b" = some "1") ∧
    (List.lookup "b" ([] : Doc) = none → ("b", "1") ∈ ([("b", "1")] : Doc) →
      ((vaultIsRedactedKey ⟨["password"], some true, some false⟩ "b" &&
          !(false : Bool) && !(false : Bool)) = false →
        (!(vaultIsRedactedKey ⟨["password"], some true, some false⟩ "b") &&
          (false : Bool) && !(false : Bool)) = false →
        ((vaultCopyMerge ⟨["password"], some true, some false⟩ ⟨false, false, false, false⟩
          [("b", "1")] []).lookup "b").isSome = true) ∧
      ((awsIsRedactedKey ⟨["password"], some true, some false⟩ "b" &&
          !(false : Bool) && !(false : Bool)) = false →
        (!(awsIsRedactedKey ⟨["password"], some true, some false⟩ "b") &&
          (false : Bool) && !(false : Bool)) = false →
        ((awsCopyMerge ⟨["password"], some true, some false⟩ ⟨false, false, false, false⟩
          [("b", "1")] []).lookup "b").isSome = true))) :=
  C6_copy_frame ⟨["password"], some true, some false⟩ ⟨false, false, false, false⟩
    [("b", "1")] [] "b" "1" rfl (by simp)

/-- Filtering a mapped list by a predicate that holds on every image keeps
the whole list. -/
theorem filterMapAll {α β : Type} (f : α → β) (p : β → Bool) (l : List α)
    (h : ∀ a, p (f a) = true) : (l.map f).filter p = l.map f := by
  induction l with
  | nil => rfl
  | cons a rest ih => simp [h a, ih]

/-- Filtering a mapped list by a predicate that fails on every image gives
the empty list. -/
theorem filterMapNone {α β : Type} (f : α → β) (p : β → Bool) (l : List α)
    (h : ∀ a, p (f a) = false) : (l.map f).filter p = [] := by
  induction l with
  | nil => rfl
  | cons a rest ih => simp [h a, ih]

/-- C9: with one document present and the other absent, both the
cross-store comparer and the vault client comparer prepend an
informational marker entry and then emit exactly one entry per key of the
present side — all with status Added when the present side is the source,
all with status Removed when it is the target, and none of the opposite
status. -/
theorem C9_absence (gdiff : String → String → String) (cfg : Configs)
    (sI tI sS tS eN tN ps : String) (A : Doc)
    (hps : (["config", "configs", "secret", "secrets"].contains ps) = true) :
    (∃ tl, crossCompare gdiff cfg sI tI sS tS (some A) none =
        .ok (mkCrossInfoMissingTarget tI tS :: tl) ∧
      tl.length = A.length ∧
      (tl.filter (fun e => e.status == "+")).length = A.length ∧
      tl.filter (fun e => e.status == "-") = []) ∧
    (∃ tl, crossCompare gdiff cfg sI tI sS tS none (some A) =
        .ok (mkCrossInfoMissingSource sI sS :: tl) ∧
      tl.length = A.length ∧
      (tl.filter (fun e => e.status == "-")).length = A.length ∧
      tl.filter (fun e => e.status == "+") = []) ∧
    (∃ tl, clientCompareSecrets eN tN ps (some A) none =
        .ok (⟨"INFO", "", "Secret doesnt exist in " ++ tN ++ " environment",
            false, "+"⟩ :: tl) ∧
      tl.length = A.length ∧
      (tl.filter (fun e => e.status == "+")).length = A.length ∧
      tl.filter (fun e => e.status == "-") = []) ∧
    (∃ tl, clientCompareSecrets eN tN ps none (some A) =
        .ok (⟨"INFO", "Secret doesnt exist in " ++ eN ++ " environment", "",
            false, "-"⟩ :: tl) ∧
      tl.length = A.length ∧
      (tl.filter (fun e => e.status == "-")).length = A.length ∧
      tl.filter (fun e => e.status == "+") = []) := by
  have hps2 : ps = "config" ∨ ps = "configs" ∨ ps = "secret" ∨ ps = "secrets" := by
    simpa using hps
  refine ⟨?_, ?_, ?_, ?_⟩
  · refine ⟨_, rfl, by simp, ?_, ?_⟩
    · rw [filterMapAll _ _ _ (fun a => rfl)]
      simp
    · exact filterMapNone _ _ _ (fun a => rfl)
  · refine ⟨_, rfl, by simp, ?_, ?_⟩
    · rw [filterMapAll _ _ _ (fun a => rfl)]
      simp
    · exact filterMapNone _ _ _ (fun a => rfl)
  · rcases hps2 with h | h | h | h <;> subst h <;>
      exact ⟨_, rfl, by simp,
        by rw [filterMapAll _ _ _ (fun a => rfl)]; simp,
        filterMapNone _ _ _ (fun a => rfl)⟩
  · rcases hps2 with h | h | h | h <;> subst h <;>
      exact ⟨_, rfl, by simp,
        by rw [filterMapAll _ _ _ (fun a => rfl)]; simp,
        filterMapNone _ _ _ (fun a => rfl)⟩

/-- Witness for C9 at a concrete one-key document and the path suffix
`config`. -/
theorem C9_absence_witness :
    (∃ tl, crossCompare (fun _ _ => "") ⟨["password"], some true, some false⟩
        "dev" "uat" "vault" "awssecretsmanager" (some [("k", "v")]) none =
        .ok (mkCrossInfoMissingTarget "uat" "awssecretsmanager" :: tl) ∧
      tl.length = ([("k", "v")] : Doc).length ∧
      (tl.filter (fun e => e.status == "+")).length = ([("k", "v")] : Doc).length ∧
      tl.filter (fun e => e.status == "-") = []) ∧
    (∃ tl, crossCompare (fun _ _ => "") ⟨["password"], some true, some false⟩
        "dev" "uat" "vault" "awssecretsmanager" none (some [("k", "v")]) =
        .ok (mkCrossInfoMissingSource "dev" "vault" :: tl) ∧
      tl.length = ([("k", "v")] : Doc).length ∧
      (tl.filter (fun e => e.status == "-")).length = ([("k", "v")] : Doc).length ∧
      tl.filter (fun e => e.status == "+") = []) ∧
    (∃ tl, clientCompareSecrets "dev" "prod" "config" (some [("k", "v")]) none =
        .ok (⟨"INFO", "", "Secret doesnt exist in " ++ "prod" ++ " environment",
            false, "+"⟩ :: tl) ∧
      tl.length = ([("k", "v")] : Doc).length ∧
      (tl.filter (fun e => e.status == "+")).length = ([("k", "v")] : Doc).length ∧
      tl.filter (fun e => e.status == "-") = []) ∧
    (∃ tl, clientCompareSecrets "dev" "prod" "config" none (some [("k", "v")]) =
        .ok (⟨"INFO", "Secret doesnt exist in " ++ "dev" ++ " environment", "",
            false, "-"⟩ :: tl) ∧
      tl.length = ([("k", "v")] : Doc).length ∧
      (tl.filter (fun e => e.status == "-")).length = ([("k", "v")] : Doc).length ∧
      tl.filter (fun e => e.status == "+") = []) :=
  C9_absence (fun _ _ => "") ⟨["password"], some true, some false⟩
    "dev" "uat" "vault" "awssecretsmanager" "dev" "prod" "config" [("k", "v")] rfl

/-- C2: the claim states the Modified-versus-equal decision is computed on
the raw unredacted values, nested-JSON redaction never changing whether an
entry is emitted; refuted: with nested-JSON redaction on, the two raw
values differ only inside the sensitive field "password", both redact to
the same display string, and all three cited comparers — cross-store,
vault and AWS instance — emit no entry at all. -/
theorem C2_counterexample :
    ("\x7b\"password\":\"a\"\x7d" : String) ≠ "\x7b\"password\":\"b\"\x7d" ∧
    crossBoth (fun _ _ => "") ⟨["password"], some true, some true⟩
      [("k", "\x7b\"password\":\"a\"\x7d")] [("k", "\x7b\"password\":\"b\"\x7d")] = [] ∧
    vaultBoth (fun _ _ => "") ⟨["password"], some true, some true⟩ "config"
      [("k", "\x7b\"password\":\"a\"\x7d")] [("k", "\x7b\"password\":\"b\"\x7d")] = [] ∧
    awsBoth (fun _ _ => "") ⟨["password"], some true, some true⟩
      [("k", "\x7b\"password\":\"a\"\x7d")] [("k", "\x7b\"password\":\"b\"\x7d")] = [] :=
  ⟨by decide, rfl, rfl, rfl⟩

/-- Modified-emission rule for the cross-store comparer: an entry with
status Modified exists for a key iff the key is common and the two
displayed strings differ. -/
theorem crossBoth_modified_iff (gdiff : String → String → String) (cfg : Configs)
    (sdoc tdoc : Doc) (k : String) (hs : (sdoc.map Prod.fst).Nodup) :
    (∃ e ∈ crossBoth gdiff cfg sdoc tdoc, e.key = k ∧ e.status = "*") ↔
      ∃ sv tv, sdoc.lookup k = some sv ∧ tdoc.lookup k = some tv ∧
        crossDisplay cfg sv ≠ crossDisplay cfg tv := by
  constructor
  · rintro ⟨e, he, hek, hes⟩
    rcases List.mem_append.mp he with h1 | h2
    · rcases List.mem_filterMap.mp h1 with ⟨kv, hkv, hfe⟩
      unfold crossBothEntrySrc at hfe
      split at hfe
      · have h3 := Option.some.inj hfe
        rw [← h3] at hes
        exact absurd hes (show ¬("+" : String) = "*" by decide)
      · rename_i tv hlt
        dsimp only at hfe
        by_cases hcond : (crossDisplay cfg kv.2 != crossDisplay cfg tv) = true
        · rw [if_pos hcond] at hfe
          have h3 := Option.some.inj hfe
          have hkey : kv.1 = k := by
            rw [← h3] at hek
            exact hek
          refine ⟨kv.2, tv, ?_, ?_, bne_iff_ne.mp hcond⟩
          · rw [← hkey]
            apply lookup_of_mem_nodup hs
            have hkv2 : (kv.1, kv.2) = kv := rfl
            rw [hkv2]
            exact hkv
          · rw [← hkey]
            exact hlt
        · rw [if_neg hcond] at hfe
          cases hfe
    · rcases List.mem_filterMap.mp h2 with ⟨kv, hkv, hfe⟩
      unfold crossBothEntryTgt at hfe
      split at hfe
      · cases hfe
      · have h3 := Option.some.inj hfe
        rw [← h3] at hes
        exact absurd hes (show ¬("-" : String) = "*" by decide)
  · rintro ⟨sv, tv, hsl, htl, hne⟩
    have hentry : crossBothEntrySrc gdiff cfg tdoc (k, sv) =
        some ⟨k, crossDisplay cfg sv, crossDisplay cfg tv,
          if !(shouldRedact k cfg) then
            gdiff (crossDisplay cfg sv) (crossDisplay cfg tv) else "",
          shouldRedact k cfg, "*"⟩ := by
      unfold crossBothEntrySrc
      dsimp only
      rw [htl]
      dsimp only
      rw [if_pos (bne_iff_ne.mpr hne)]
    refine ⟨⟨k, crossDisplay cfg sv, crossDisplay cfg tv,
        if !(shouldRedact k cfg) then
          gdiff (crossDisplay cfg sv) (crossDisplay cfg tv) else "",
        shouldRedact k cfg, "*"⟩, ?_, rfl, rfl⟩
    unfold crossBoth
    exact List.mem_append_left _
      (List.mem_filterMap.mpr ⟨(k, sv), lookup_mem hsl, hentry⟩)

/-- Modified-emission rule for the vault `CompareSecrets` both-present
comparison: same shape as the cross-store rule, with the vault display
transform and the vault `isRedactedKey`. -/
theorem vaultBoth_modified_iff (gdiff : String → String → String) (cfg : Configs)
    (pathSuffix : String) (sdoc tdoc : Doc) (k : String)
    (hs : (sdoc.map Prod.fst).Nodup) :
    (∃ e ∈ vaultBoth gdiff cfg pathSuffix sdoc tdoc, e.key = k ∧ e.status = "*") ↔
      ∃ sv tv, sdoc.lookup k = some sv ∧ tdoc.lookup k = some tv ∧
        vaultDisplay cfg sv ≠ vaultDisplay cfg tv := by
  constructor
  · rintro ⟨e, he, hek, hes⟩
    rcases List.mem_append.mp he with h1 | h2
    · rcases List.mem_filterMap.mp h1 with ⟨kv, hkv, hfe⟩
      unfold vaultBothEntrySrc at hfe
      split at hfe
      · have h3 := Option.some.inj hfe
        rw [← h3] at hes
        exact absurd hes (show ¬("+" : String) = "*" by decide)
      · rename_i tv hlt
        dsimp only at hfe
        by_cases hcond : (vaultDisplay cfg kv.2 != vaultDisplay cfg tv) = true
        · rw [if_pos hcond] at hfe
          have h3 := Option.some.inj hfe
          have hkey : kv.1 = k := by
            rw [← h3] at hek
            exact hek
          refine ⟨kv.2, tv, ?_, ?_, bne_iff_ne.mp hcond⟩
          · rw [← hkey]
            apply lookup_of_mem_nodup hs
            have hkv2 : (kv.1, kv.2) = kv := rfl
            rw [hkv2]
            exact hkv
          · rw [← hkey]
            exact hlt
        · rw [if_neg hcond] at hfe
          cases hfe
    · rcases List.mem_filterMap.mp h2 with ⟨kv, hkv, hfe⟩
      unfold vaultBothEntryTgt at hfe
      split at hfe
      · cases hfe
      · have h3 := Option.some.inj hfe
        rw [← h3] at hes
        exact absurd hes (show ¬("-" : String) = "*" by decide)
  · rintro ⟨sv, tv, hsl, htl, hne⟩
    have hentry : vaultBothEntrySrc gdiff cfg pathSuffix tdoc (k, sv) =
        some ⟨k, vaultDisplay cfg sv, vaultDisplay cfg tv,
          if !(vaultIsRedactedKey cfg k) then
            gdiff (vaultDisplay cfg sv) (vaultDisplay cfg tv) else "",
          vaultIsRedactedKey cfg k, "*"⟩ := by
      unfold vaultBothEntrySrc
      dsimp only
      rw [htl]
      dsimp only
      rw [if_pos (bne_iff_ne.mpr hne)]
    refine ⟨⟨k, vaultDisplay cfg sv, vaultDisplay cfg tv,
        if !(vaultIsRedactedKey cfg k) then
          gdiff (vaultDisplay cfg sv) (vaultDisplay cfg tv) else "",
        vaultIsRedactedKey cfg k, "*"⟩, ?_, rfl, rfl⟩
    unfold vaultBoth
    exact List.mem_append_left _
      (List.mem_filterMap.mpr ⟨(k, sv), lookup_mem hsl, hentry⟩)

/-- Modified-emission rule for the AWS instance comparer both-JSON
comparison: same shape again, with the AWS display transform and the AWS
`isRedactedKey`. -/
theorem awsBoth_modified_iff (gdiff : String → String → String) (cfg : Configs)
    (sdoc tdoc : Doc) (k : String) (hs : (sdoc.map Prod.fst).Nodup) :
    (∃ e ∈ awsBoth gdiff cfg sdoc tdoc, e.key = k ∧ e.status = "*") ↔
      ∃ sv tv, sdoc.lookup k = some sv ∧ tdoc.lookup k = some tv ∧
        awsDisplay cfg sv ≠ awsDisplay cfg tv := by
  constructor
  · rintro ⟨e, he, hek, hes⟩
    rcases List.mem_append.mp he with h1 | h2
    · rcases List.mem_filterMap.mp h1 with ⟨kv, hkv, hfe⟩
      unfold awsBothEntrySrc at hfe
      split at hfe
      · have h3 := Option.some.inj hfe
        rw [← h3] at hes
        exact absurd hes (show ¬("+" : String) = "*" by decide)
      · rename_i tv hlt
        dsimp only at hfe
        by_cases hcond : (awsDisplay cfg kv.2 != awsDisplay cfg tv) = true
        · rw [if_pos hcond] at hfe
          have h3 := Option.some.inj hfe
          have hkey : kv.1 = k := by
            rw [← h3] at hek
            exact hek
          refine ⟨kv.2, tv, ?_, ?_, bne_iff_ne.mp hcond⟩
          · rw [← hkey]
            apply lookup_of_mem_nodup hs
            have hkv2 : (kv.1, kv.2) = kv := rfl
            rw [hkv2]
            exact hkv
          · rw [← hkey]
            exact hlt
        · rw [if_neg hcond] at hfe
          cases hfe
    · rcases List.mem_filterMap.mp h2 with ⟨kv, hkv, hfe⟩
      unfold awsBothEntryTgt at hfe
      split at hfe
      · cases hfe
      · have h3 := Option.some.inj hfe
        rw [← h3] at hes
        exact absurd hes (show ¬("-" : String) = "*" by decide)
  · rintro ⟨sv, tv, hsl, htl, hne⟩
    have hentry : awsBothEntrySrc gdiff cfg tdoc (k, sv) =
        some ⟨k, awsDisplay cfg sv, awsDisplay cfg tv,
          if !(awsIsRedactedKey cfg k) then
            gdiff (awsDisplay cfg sv) (awsDisplay cfg tv) else "",
          awsIsRedactedKey cfg k, "*"⟩ := by
      unfold awsBothEntrySrc
      dsimp only
      rw [htl]
      dsimp only
      rw [if_pos (bne_iff_ne.mpr hne)]
    refine ⟨⟨k, awsDisplay cfg sv, awsDisplay cfg tv,
        if !(awsIsRedactedKey cfg k) then
          gdiff (awsDisplay cfg sv) (awsDisplay cfg tv) else "",
        awsIsRedactedKey cfg k, "*"⟩, ?_, rfl, rfl⟩
    unfold awsBoth
    exact List.mem_append_left _
      (List.mem_filterMap.mpr ⟨(k, sv), lookup_mem hsl, hentry⟩)

/-- C2 (amended): each of the three cited differs — the cross-store
`CompareVaultWithAWS`, the vault `Client.CompareSecrets` and
`CompareAWSSecretInstances` — emits a Modified entry for a key exactly
when its two displayed strings, the rendered values after that differ's
nested-JSON redaction pass, differ; since the redaction pass runs before
the equality check, it can suppress entries whose raw values differ. -/
theorem C2_amended (gdiff : String → String → String) (cfg : Configs)
    (pathSuffix : String) (sdoc tdoc : Doc) (k : String)
    (hs : (sdoc.map Prod.fst).Nodup) :
    ((∃ e ∈ crossBoth gdiff cfg sdoc tdoc, e.key = k ∧ e.status = "*") ↔
      ∃ sv tv, sdoc.lookup k = some sv ∧ tdoc.lookup k = some tv ∧
        crossDisplay cfg sv ≠ crossDisplay cfg tv) ∧
    ((∃ e ∈ vaultBoth gdiff cfg pathSuffix sdoc tdoc, e.key = k ∧ e.status = "*") ↔
      ∃ sv tv, sdoc.lookup k = some sv ∧ tdoc.lookup k = some tv ∧
        vaultDisplay cfg sv ≠ vaultDisplay cfg tv) ∧
    ((∃ e ∈ awsBoth gdiff cfg sdoc tdoc, e.key = k ∧ e.status = "*") ↔
      ∃ sv tv, sdoc.lookup k = some sv ∧ tdoc.lookup k = some tv ∧
        awsDisplay cfg sv ≠ awsDisplay cfg tv) :=
  ⟨crossBoth_modified_iff gdiff cfg sdoc tdoc k hs,
   vaultBoth_modified_iff gdiff cfg pathSuffix sdoc tdoc k hs,
   awsBoth_modified_iff gdiff cfg sdoc tdoc k hs⟩

/-- Witness for C2 (amended) at a concrete pair of one-key documents with
differing scalar values and no JSON redaction. -/
theorem C2_amended_witness :
    ((∃ e ∈ crossBoth (fun _ _ => "") ⟨["password"], some false, some false⟩
        [("k", "1")] [("k", "2")], e.key = "k" ∧ e.status = "*") ↔
      ∃ sv tv, List.lookup "k" ([("k", "1")] : Doc) = some sv ∧
        List.lookup "k" ([("k", "2")] : Doc) = some tv ∧
        crossDisplay ⟨["password"], some false, some false⟩ sv ≠
          crossDisplay ⟨["password"], some false, some false⟩ tv) ∧
    ((∃ e ∈ vaultBoth (fun _ _ => "") ⟨["password"], some false, some false⟩
        "config" [("k", "1")] [("k", "2")], e.key = "k" ∧ e.status = "*") ↔
      ∃ sv tv, List.lookup "k" ([("k", "1")] : Doc) = some sv ∧
        List.lookup "k" ([("k", "2")] : Doc) = some tv ∧
        vaultDisplay ⟨["password"], some false, some false⟩ sv ≠
          vaultDisplay ⟨["password"], some false, some false⟩ tv) ∧
    ((∃ e ∈ awsBoth (fun _ _ => "") ⟨["password"], some false, some false⟩
        [("k", "1")] [("k", "2")], e.key = "k" ∧ e.status = "*") ↔
      ∃ sv tv, List.lookup "k" ([("k", "1")] : Doc) = some sv ∧
        List.lookup "k" ([("k", "2")] : Doc) = some tv ∧
        awsDisplay ⟨["password"], some false, some false⟩ sv ≠
          awsDisplay ⟨["password"], some false, some false⟩ tv) :=
  C2_amended (fun _ _ => "") ⟨["password"], some false, some false⟩
    "config" [("k", "1")] [("k", "2")] "k" (by simp)
